import Mathlib

/-!
# Verification of SelectFileCLI directory-size computation and selection API

Shallow embedding of `src/selectfilecli/file_browser_app.py`
(`calculate_directory_size`, `_manage_cache`, `_create_file_info`,
`action_quit`), `src/selectfilecli/file_info.py` (`FileInfo`) and
`src/selectfilecli/__init__.py` (`select_file`).

The filesystem is modelled abstractly: paths form a type `P` with decidable
equality (the code uses path strings; position lists instantiate `P` for
concrete trees), and the three OS primitives the code calls —
`Path.resolve`, `Path.iterdir`, `Path.lstat` — are fields of a structure
`FS`; a `none` result models the `OSError`/`PermissionError` the Python
code catches at that call site.
-/

set_option autoImplicit false

namespace SelectFileCLI

/-- File type as classified by `stat.S_ISREG` / `stat.S_ISDIR` on the
`lstat` result: a regular file, a directory, a symlink, or any other
special entry (socket, device, fifo, ...). `lstat` does not follow
symlinks, so a symlink is never reported as `dir` or `reg`. -/
inductive FType where
  | reg
  | dir
  | symlink
  | other
deriving DecidableEq, Repr

/-- Result of `entry.lstat()`: the file type bits and `st_size`. -/
structure LStatInfo where
  ftype : FType
  size : Nat
deriving DecidableEq, Repr

/-- Abstract filesystem over path type `P`.

* `resolve p` models `p.resolve()`: the canonical (symlink-followed) real
  path, or `none` when resolution raises `OSError`/`RuntimeError`.
* `listing p` models `list(p.iterdir())`: the entries of directory `p` in
  iteration order, or `none` when iteration raises
  `PermissionError`/`OSError`.
* `lstat p` models `p.lstat()`: `none` when it raises
  `PermissionError`/`OSError`. -/
structure FS (P : Type) where
  resolve : P → Option P
  listing : P → Option (List P)
  lstat : P → Option LStatInfo

/-- `MAX_VENV_CACHE_SIZE = 1000` (file_browser_app.py line 117). -/
def MAX_VENV_CACHE_SIZE : Nat := 1000

/-- `MAX_DIR_CACHE_SIZE = 500` (file_browser_app.py line 118). -/
def MAX_DIR_CACHE_SIZE : Nat := 500

/-- `MAX_DIRECTORY_DEPTH = 100` (file_browser_app.py line 119). -/
def MAX_DIRECTORY_DEPTH : Nat := 100

/-- The `_dir_size_cache : OrderedDict[str, int]`, modelled as an
association list in insertion order: the head is the oldest
(least-recently-used) entry, the last element the most recent. -/
abbrev Cache (P : Type) := List (P × Nat)

variable {P : Type} [DecidableEq P]

/-- Dictionary lookup `cache[key]` / `key in cache` (first entry whose key
matches; keys are unique in a Python dict). -/
def cacheFind : Cache P → P → Option Nat
  | [], _ => none
  | (k', v) :: rest, k => if k' = k then some v else cacheFind rest k

/-- Remove every entry with the given key (helper for `move_to_end`). -/
def eraseKey : Cache P → P → Cache P
  | [], _ => []
  | (k', v) :: rest, k =>
    if k' = k then eraseKey rest k else (k', v) :: eraseKey rest k

/-- `OrderedDict.move_to_end(key)`: the entry keeps its value and moves to
the most-recently-used end; a missing key leaves the dict unchanged (the
code only calls it when `key in cache`). -/
def moveToEnd (c : Cache P) (k : P) : Cache P :=
  match cacheFind c k with
  | none => c
  | some v => eraseKey c k ++ [(k, v)]

/-- `OrderedDict.popitem(last=False)`: drop the oldest entry. -/
def popOldest (c : Cache P) : Cache P := c.drop 1

/-- `_manage_cache(cache, key, max_size)` (file_browser_app.py lines
435-448): if the key exists, promote it to most-recently-used; otherwise,
if the cache is full, evict the least-recently-used entry. -/
def manage_cache (c : Cache P) (k : P) (maxSize : Nat) : Cache P :=
  if (cacheFind c k).isSome then moveToEnd c k
  else if maxSize ≤ c.length then popOldest c
  else c

/-- Dictionary assignment `cache[key] = value`: an existing key keeps its
position and gets the new value; a new key is appended at the
most-recently-used end. -/
def cacheSet (c : Cache P) (k : P) (v : Nat) : Cache P :=
  if (cacheFind c k).isSome then
    c.map (fun kv => if kv.1 = k then (k, v) else kv)
  else c ++ [(k, v)]

mutual

/-- `calculate_directory_size(dir_path, depth, max_items, visited)`
(file_browser_app.py lines 487-559), with the mutable state made explicit:
the `visited` set of real-path strings (threaded through the whole call
tree, as the Python set object is shared by reference) and the instance's
`_dir_size_cache`. Returns `(total_size, visited, cache)`. -/
def calculate_directory_size (fs : FS P) (dir_path : P) (depth : Nat)
    (max_items : Nat) (visited : List P) (cache : Cache P) :
    Nat × List P × Cache P :=
  if h : MAX_DIRECTORY_DEPTH < depth then (0, visited, cache)
  else
    match fs.resolve dir_path with
    | none => (0, visited, cache)
    | some real_path =>
      if real_path ∈ visited then (0, visited, cache)
      else
        let visited1 := real_path :: visited
        match cacheFind cache dir_path with
        | some v =>
          (v, visited1, manage_cache cache dir_path MAX_DIR_CACHE_SIZE)
        | none =>
          let walk : Nat × List P × Cache P :=
            match fs.listing dir_path with
            | none => (0, visited1, cache)
            | some entries =>
              processEntries fs entries depth max_items 0 visited1 cache
          let cache2 := manage_cache walk.2.2 dir_path MAX_DIR_CACHE_SIZE
          (walk.1, walk.2.1, cacheSet cache2 dir_path walk.1)
termination_by (MAX_DIRECTORY_DEPTH + 2 - depth, 0)
decreasing_by
  simp only [MAX_DIRECTORY_DEPTH] at *
  exact Prod.Lex.left _ _ (by omega)

/-- The `for entry in dir_path.iterdir()` loop body of
`calculate_directory_size` (file_browser_app.py lines 530-552):
`items_processed` counts entries against `max_items` before the entry's
`lstat` is attempted, a regular file adds `st_size`, a directory recurses
at `depth + 1`, and symlinks, special files and entries whose `lstat`
fails contribute nothing. Returns the loop's contribution to `total_size`
together with the final `visited` and cache states. -/
def processEntries (fs : FS P) (entries : List P) (depth : Nat)
    (max_items : Nat) (items_processed : Nat) (visited : List P)
    (cache : Cache P) : Nat × List P × Cache P :=
  match entries with
  | [] => (0, visited, cache)
  | entry :: rest =>
    if max_items ≤ items_processed then (0, visited, cache)
    else
      match fs.lstat entry with
      | none =>
        processEntries fs rest depth max_items (items_processed + 1)
          visited cache
      | some st =>
        match st.ftype with
        | .reg =>
          let r := processEntries fs rest depth max_items
            (items_processed + 1) visited cache
          (st.size + r.1, r.2.1, r.2.2)
        | .dir =>
          let s := calculate_directory_size fs entry (depth + 1) max_items
            visited cache
          let r := processEntries fs rest depth max_items
            (items_processed + 1) s.2.1 s.2.2
          (s.1 + r.1, r.2.1, r.2.2)
        | .symlink =>
          processEntries fs rest depth max_items (items_processed + 1)
            visited cache
        | .other =>
          processEntries fs rest depth max_items (items_processed + 1)
            visited cache
termination_by (MAX_DIRECTORY_DEPTH + 1 - depth, entries.length + 1)
decreasing_by
  all_goals
    (simp only [MAX_DIRECTORY_DEPTH] at *
     first
      | exact Prod.Lex.right _ (by simp)
      | (have e : 100 + 2 - (depth + 1) = 100 + 1 - depth := by omega
         rw [e]
         exact Prod.Lex.right _ (by simp)))

end

/-! ## Unfolding lemmas for `calculate_directory_size` and `processEntries` -/

theorem calc_depth_exceeded (fs : FS P) (dir_path : P) (depth max_items : Nat)
    (visited : List P) (cache : Cache P) (h : MAX_DIRECTORY_DEPTH < depth) :
    calculate_directory_size fs dir_path depth max_items visited cache
      = (0, visited, cache) := by
  rw [calculate_directory_size]
  simp [h]

theorem calc_resolve_none (fs : FS P) (dir_path : P) (depth max_items : Nat)
    (visited : List P) (cache : Cache P) (h : ¬ MAX_DIRECTORY_DEPTH < depth)
    (hr : fs.resolve dir_path = none) :
    calculate_directory_size fs dir_path depth max_items visited cache
      = (0, visited, cache) := by
  rw [calculate_directory_size]
  simp [h, hr]

theorem calc_visited (fs : FS P) (dir_path : P) (depth max_items : Nat)
    (visited : List P) (cache : Cache P) (real_path : P)
    (h : ¬ MAX_DIRECTORY_DEPTH < depth)
    (hr : fs.resolve dir_path = some real_path) (hv : real_path ∈ visited) :
    calculate_directory_size fs dir_path depth max_items visited cache
      = (0, visited, cache) := by
  rw [calculate_directory_size]
  simp [h, hr, hv]

theorem calc_cache_hit (fs : FS P) (dir_path : P) (depth max_items : Nat)
    (visited : List P) (cache : Cache P) (real_path : P) (v : Nat)
    (h : ¬ MAX_DIRECTORY_DEPTH < depth)
    (hr : fs.resolve dir_path = some real_path) (hv : real_path ∉ visited)
    (hc : cacheFind cache dir_path = some v) :
    calculate_directory_size fs dir_path depth max_items visited cache
      = (v, real_path :: visited,
          manage_cache cache dir_path MAX_DIR_CACHE_SIZE) := by
  rw [calculate_directory_size]
  simp [h, hr, hv, hc]

theorem calc_listing_none (fs : FS P) (dir_path : P) (depth max_items : Nat)
    (visited : List P) (cache : Cache P) (real_path : P)
    (h : ¬ MAX_DIRECTORY_DEPTH < depth)
    (hr : fs.resolve dir_path = some real_path) (hv : real_path ∉ visited)
    (hc : cacheFind cache dir_path = none)
    (hl : fs.listing dir_path = none) :
    calculate_directory_size fs dir_path depth max_items visited cache
      = (0, real_path :: visited,
          cacheSet (manage_cache cache dir_path MAX_DIR_CACHE_SIZE)
            dir_path 0) := by
  rw [calculate_directory_size]
  simp [h, hr, hv, hc, hl]

theorem calc_listing_some (fs : FS P) (dir_path : P) (depth max_items : Nat)
    (visited : List P) (cache : Cache P) (real_path : P) (entries : List P)
    (h : ¬ MAX_DIRECTORY_DEPTH < depth)
    (hr : fs.resolve dir_path = some real_path) (hv : real_path ∉ visited)
    (hc : cacheFind cache dir_path = none)
    (hl : fs.listing dir_path = some entries) :
    calculate_directory_size fs dir_path depth max_items visited cache
      = ((processEntries fs entries depth max_items 0
            (real_path :: visited) cache).1,
         (processEntries fs entries depth max_items 0
            (real_path :: visited) cache).2.1,
         cacheSet
           (manage_cache
             (processEntries fs entries depth max_items 0
               (real_path :: visited) cache).2.2
             dir_path MAX_DIR_CACHE_SIZE)
           dir_path
           (processEntries fs entries depth max_items 0
             (real_path :: visited) cache).1) := by
  rw [calculate_directory_size]
  simp [h, hr, hv, hc, hl]

theorem process_nil (fs : FS P) (depth max_items items_processed : Nat)
    (visited : List P) (cache : Cache P) :
    processEntries fs [] depth max_items items_processed visited cache
      = (0, visited, cache) := by
  rw [processEntries]

theorem process_budget (fs : FS P) (entry : P) (rest : List P)
    (depth max_items items_processed : Nat) (visited : List P)
    (cache : Cache P) (h : max_items ≤ items_processed) :
    processEntries fs (entry :: rest) depth max_items items_processed
        visited cache
      = (0, visited, cache) := by
  rw [processEntries]
  simp [h]

theorem process_lstat_none (fs : FS P) (entry : P) (rest : List P)
    (depth max_items items_processed : Nat) (visited : List P)
    (cache : Cache P) (h : ¬ max_items ≤ items_processed)
    (hs : fs.lstat entry = none) :
    processEntries fs (entry :: rest) depth max_items items_processed
        visited cache
      = processEntries fs rest depth max_items (items_processed + 1)
          visited cache := by
  rw [processEntries]
  simp [h, hs]

theorem process_reg (fs : FS P) (entry : P) (rest : List P)
    (depth max_items items_processed : Nat) (visited : List P)
    (cache : Cache P) (st : LStatInfo) (h : ¬ max_items ≤ items_processed)
    (hs : fs.lstat entry = some st) (hreg : st.ftype = FType.reg) :
    processEntries fs (entry :: rest) depth max_items items_processed
        visited cache
      = (st.size
          + (processEntries fs rest depth max_items (items_processed + 1)
              visited cache).1,
         (processEntries fs rest depth max_items (items_processed + 1)
            visited cache).2) := by
  rw [processEntries]
  simp [h, hs, hreg]

theorem process_dir (fs : FS P) (entry : P) (rest : List P)
    (depth max_items items_processed : Nat) (visited : List P)
    (cache : Cache P) (st : LStatInfo) (h : ¬ max_items ≤ items_processed)
    (hs : fs.lstat entry = some st) (hdir : st.ftype = FType.dir) :
    processEntries fs (entry :: rest) depth max_items items_processed
        visited cache
      = ((calculate_directory_size fs entry (depth + 1) max_items visited
            cache).1
          + (processEntries fs rest depth max_items (items_processed + 1)
              (calculate_directory_size fs entry (depth + 1) max_items
                visited cache).2.1
              (calculate_directory_size fs entry (depth + 1) max_items
                visited cache).2.2).1,
         (processEntries fs rest depth max_items (items_processed + 1)
            (calculate_directory_size fs entry (depth + 1) max_items
              visited cache).2.1
            (calculate_directory_size fs entry (depth + 1) max_items
              visited cache).2.2).2) := by
  rw [processEntries]
  simp [h, hs, hdir]

theorem process_skip (fs : FS P) (entry : P) (rest : List P)
    (depth max_items items_processed : Nat) (visited : List P)
    (cache : Cache P) (st : LStatInfo) (h : ¬ max_items ≤ items_processed)
    (hs : fs.lstat entry = some st) (h1 : st.ftype ≠ FType.reg)
    (h2 : st.ftype ≠ FType.dir) :
    processEntries fs (entry :: rest) depth max_items items_processed
        visited cache
      = processEntries fs rest depth max_items (items_processed + 1)
          visited cache := by
  rw [processEntries]
  cases hft : st.ftype <;> simp_all

/-! ## Lemmas about the OrderedDict cache operations -/

theorem cacheFind_eq_none (c : Cache P) (k : P) :
    cacheFind c k = none ↔ ∀ kv ∈ c, kv.1 ≠ k := by
  induction c with
  | nil => simp [cacheFind]
  | cons kv rest ih =>
    obtain ⟨k', v⟩ := kv
    by_cases h : k' = k <;> simp [cacheFind, h, ih]

theorem cacheFind_append_of_none (c : Cache P) (c' : Cache P) (k : P)
    (h : cacheFind c k = none) :
    cacheFind (c ++ c') k = cacheFind c' k := by
  induction c with
  | nil => simp
  | cons kv rest ih =>
    obtain ⟨k', v⟩ := kv
    by_cases hk : k' = k
    · simp [cacheFind, hk] at h
    · simp only [cacheFind, hk, if_false, List.cons_append] at *
      exact ih h

theorem cacheFind_eraseKey_self (c : Cache P) (k : P) :
    cacheFind (eraseKey c k) k = none := by
  induction c with
  | nil => simp [eraseKey, cacheFind]
  | cons kv rest ih =>
    obtain ⟨k', v⟩ := kv
    by_cases h : k' = k <;> simp [eraseKey, cacheFind, h, ih]

theorem eraseKey_length_le (c : Cache P) (k : P) :
    (eraseKey c k).length ≤ c.length := by
  induction c with
  | nil => simp [eraseKey]
  | cons kv rest ih =>
    obtain ⟨k', v⟩ := kv
    by_cases h : k' = k <;> simp [eraseKey, h] <;> omega

theorem eraseKey_length_lt (c : Cache P) (k : P) (v : Nat)
    (h : cacheFind c k = some v) : (eraseKey c k).length < c.length := by
  induction c with
  | nil => simp [cacheFind] at h
  | cons kv rest ih =>
    obtain ⟨k', v'⟩ := kv
    by_cases hk : k' = k
    · simpa [eraseKey, hk] using
        Nat.lt_succ_of_le (eraseKey_length_le rest k)
    · simp only [cacheFind, hk, if_false] at h
      simpa [eraseKey, hk] using ih h

theorem cacheFind_moveToEnd_self (c : Cache P) (k : P) :
    cacheFind (moveToEnd c k) k = cacheFind c k := by
  unfold moveToEnd
  cases h : cacheFind c k with
  | none => exact h
  | some v =>
    rw [cacheFind_append_of_none _ _ _ (cacheFind_eraseKey_self c k)]
    simp [cacheFind]

theorem moveToEnd_length_le (c : Cache P) (k : P) :
    (moveToEnd c k).length ≤ c.length := by
  unfold moveToEnd
  cases h : cacheFind c k with
  | none => exact le_refl _
  | some v =>
    have := eraseKey_length_lt c k v h
    simp only [List.length_append, List.length_cons, List.length_nil]
    omega

theorem cacheFind_map_set (c : Cache P) (k : P) (v v' : Nat)
    (h : cacheFind c k = some v') :
    cacheFind (c.map (fun kv => if kv.1 = k then (k, v) else kv)) k
      = some v := by
  induction c with
  | nil => simp [cacheFind] at h
  | cons kv rest ih =>
    obtain ⟨k', v''⟩ := kv
    by_cases hk : k' = k
    · subst hk
      simp only [List.map_cons, if_pos, if_true]
      simp [cacheFind]
    · simp only [cacheFind, if_neg hk] at h
      simp only [List.map_cons]
      have hhead : (if (k', v'').1 = k then (k, v) else (k', v''))
          = (k', v'') := if_neg hk
      rw [hhead]
      simp only [cacheFind, if_neg hk]
      exact ih h

theorem cacheFind_cacheSet_self (c : Cache P) (k : P) (v : Nat) :
    cacheFind (cacheSet c k v) k = some v := by
  unfold cacheSet
  cases h : cacheFind c k with
  | none =>
    simp only [h, Option.isSome_none, Bool.false_eq_true, if_false]
    rw [cacheFind_append_of_none _ _ _ h]
    simp [cacheFind]
  | some v' =>
    simp only [h, Option.isSome_some, if_true]
    exact cacheFind_map_set c k v v' h

theorem cacheSet_length (c : Cache P) (k : P) (v : Nat) :
    (cacheSet c k v).length ≤ c.length + 1 := by
  unfold cacheSet
  cases h : cacheFind c k with
  | none => simp
  | some v' => simp

theorem manage_then_set_length (c : Cache P) (k : P) (v : Nat) (n : Nat)
    (hn : 1 ≤ n) (hc : c.length ≤ n) :
    (cacheSet (manage_cache c k n) k v).length ≤ n := by
  unfold manage_cache
  cases h : cacheFind c k with
  | some v' =>
    simp only [h, Option.isSome_some, if_true]
    unfold cacheSet
    rw [cacheFind_moveToEnd_self c k, h]
    simp only [Option.isSome_some, if_true, List.length_map]
    exact le_trans (moveToEnd_length_le c k) hc
  | none =>
    simp only [h, Option.isSome_none, Bool.false_eq_true, if_false]
    by_cases hfull : n ≤ c.length
    · simp only [hfull, if_true]
      have hdrop : cacheFind (popOldest c) k = none := by
        rw [cacheFind_eq_none] at h ⊢
        intro kv hkv
        exact h kv (List.mem_of_mem_drop hkv)
      unfold cacheSet
      simp only [hdrop, Option.isSome_none, Bool.false_eq_true, if_false,
        List.length_append, List.length_cons, List.length_nil]
      unfold popOldest
      simp only [List.length_drop]
      omega
    · simp only [hfull, if_false]
      unfold cacheSet
      simp only [h, Option.isSome_none, Bool.false_eq_true, if_false,
        List.length_append, List.length_cons, List.length_nil]
      omega

theorem cacheFind_mem (c : Cache P) (k : P) (v : Nat)
    (h : cacheFind c k = some v) : (k, v) ∈ c := by
  induction c with
  | nil => simp [cacheFind] at h
  | cons kv rest ih =>
    obtain ⟨k', v'⟩ := kv
    by_cases hk : k' = k
    · subst hk
      simp only [cacheFind, if_pos rfl] at h
      injection h with h
      subst h
      exact List.mem_cons_self _ _
    · simp only [cacheFind, if_neg hk] at h
      exact List.mem_cons_of_mem _ (ih h)

theorem eraseKey_subset (c : Cache P) (k : P) : eraseKey c k ⊆ c := by
  induction c with
  | nil => simp [eraseKey]
  | cons kv rest ih =>
    obtain ⟨k', v⟩ := kv
    by_cases hk : k' = k
    · simp only [eraseKey, if_pos hk]
      exact fun a ha => List.mem_cons_of_mem _ (ih ha)
    · simp only [eraseKey, if_neg hk]
      intro a ha
      rcases List.mem_cons.1 ha with h1 | h2
      · exact h1 ▸ List.mem_cons_self _ _
      · exact List.mem_cons_of_mem _ (ih h2)

theorem manage_length_le (c : Cache P) (k : P) (n : Nat) :
    (manage_cache c k n).length ≤ c.length := by
  unfold manage_cache
  cases hf : cacheFind c k with
  | some v =>
    simp only [hf, Option.isSome_some, if_true]
    exact moveToEnd_length_le c k
  | none =>
    simp only [hf, Option.isSome_none, Bool.false_eq_true, if_false]
    by_cases hfull : n ≤ c.length
    · simp only [hfull, if_true]
      unfold popOldest
      simp
    · simp [hfull]

theorem manage_cache_subset (c : Cache P) (k : P) (n : Nat) :
    manage_cache c k n ⊆ c := by
  unfold manage_cache
  cases hf : cacheFind c k with
  | some v =>
    simp only [hf, Option.isSome_some, if_true]
    unfold moveToEnd
    rw [hf]
    intro a ha
    rcases List.mem_append.1 ha with h1 | h2
    · exact eraseKey_subset c k h1
    · simp only [List.mem_singleton] at h2
      subst h2
      exact cacheFind_mem c k v hf
  | none =>
    simp only [hf, Option.isSome_none, Bool.false_eq_true, if_false]
    by_cases hfull : n ≤ c.length
    · simp only [hfull, if_true]
      unfold popOldest
      exact fun a => List.mem_of_mem_drop
    · simp only [hfull, if_false]
      exact fun a ha => ha

theorem cacheSet_values_zero (c : Cache P) (k : P)
    (hc : ∀ kv ∈ c, kv.2 = 0) : ∀ kv ∈ cacheSet c k 0, kv.2 = 0 := by
  unfold cacheSet
  cases hf : cacheFind c k with
  | some v =>
    simp only [hf, Option.isSome_some, if_true]
    intro kv hkv
    rcases List.mem_map.1 hkv with ⟨kv', hkv', heq⟩
    by_cases hk : kv'.1 = k
    · rw [if_pos hk] at heq
      rw [← heq]
    · rw [if_neg hk] at heq
      rw [← heq]
      exact hc kv' hkv'
  | none =>
    simp only [hf, Option.isSome_none, Bool.false_eq_true, if_false]
    intro kv hkv
    rcases List.mem_append.1 hkv with h1 | h2
    · exact hc kv h1
    · simp only [List.mem_singleton] at h2
      rw [h2]

/-! ## Invariants of the directory walk, by mutual functional induction -/

theorem visited_mono (fs : FS P) :
    (∀ (dir_path : P) (depth max_items : Nat) (visited : List P)
        (cache : Cache P),
        visited ⊆
          (calculate_directory_size fs dir_path depth max_items visited
            cache).2.1) ∧
    (∀ (entries : List P) (depth max_items items_processed : Nat)
        (visited : List P) (cache : Cache P),
        visited ⊆
          (processEntries fs entries depth max_items items_processed
            visited cache).2.1) := by
  refine calculate_directory_size.mutual_induct fs
    (fun dir_path depth max_items visited cache =>
      visited ⊆
        (calculate_directory_size fs dir_path depth max_items visited
          cache).2.1)
    (fun entries depth max_items items_processed visited cache =>
      visited ⊆
        (processEntries fs entries depth max_items items_processed visited
          cache).2.1)
    ?_ ?_ ?_ ?_ ?_ ?_ ?_ ?_ ?_ ?_ ?_ ?_
  · intro p d m v c h
    rw [calc_depth_exceeded fs p d m v c h]
    exact fun a ha => ha
  · intro p d m v c h hr
    rw [calc_resolve_none fs p d m v c h hr]
    exact fun a ha => ha
  · intro p d m v c h r hr hv
    rw [calc_visited fs p d m v c r h hr hv]
    exact fun a ha => ha
  · intro p d m v c h r hr hv val hc
    rw [calc_cache_hit fs p d m v c r val h hr hv hc]
    exact fun a ha => List.mem_cons_of_mem _ ha
  · intro p d m v c h r hr hv v1 hcache ih
    cases hl : fs.listing p with
    | none =>
      rw [calc_listing_none fs p d m v c r h hr hv hcache hl]
      exact fun a ha => List.mem_cons_of_mem _ ha
    | some es =>
      rw [calc_listing_some fs p d m v c r es h hr hv hcache hl]
      exact fun a ha => ih es (List.mem_cons_of_mem _ ha)
  · intro d m ip v c
    rw [process_nil]
    exact fun a ha => ha
  · intro d m ip v c e rest h
    rw [process_budget fs e rest d m ip v c h]
    exact fun a ha => ha
  · intro d m ip v c e rest h hs ih
    rw [process_lstat_none fs e rest d m ip v c h hs]
    exact ih
  · intro d m ip v c e rest h st hs hreg ih
    rw [process_reg fs e rest d m ip v c st h hs hreg]
    exact ih
  · intro d m ip v c e rest h st hs hdir s ih1 ih2
    rw [process_dir fs e rest d m ip v c st h hs hdir]
    exact fun a ha => ih2 (ih1 ha)
  · intro d m ip v c e rest h st hs hft ih
    rw [process_skip fs e rest d m ip v c st h hs (by simp [hft])
      (by simp [hft])]
    exact ih
  · intro d m ip v c e rest h st hs hft ih
    rw [process_skip fs e rest d m ip v c st h hs (by simp [hft])
      (by simp [hft])]
    exact ih

theorem cache_bound (fs : FS P) :
    (∀ (dir_path : P) (depth max_items : Nat) (visited : List P)
        (cache : Cache P),
        cache.length ≤ MAX_DIR_CACHE_SIZE →
        ((calculate_directory_size fs dir_path depth max_items visited
          cache).2.2).length ≤ MAX_DIR_CACHE_SIZE) ∧
    (∀ (entries : List P) (depth max_items items_processed : Nat)
        (visited : List P) (cache : Cache P),
        cache.length ≤ MAX_DIR_CACHE_SIZE →
        ((processEntries fs entries depth max_items items_processed visited
          cache).2.2).length ≤ MAX_DIR_CACHE_SIZE) := by
  refine calculate_directory_size.mutual_induct fs
    (fun dir_path depth max_items visited cache =>
      cache.length ≤ MAX_DIR_CACHE_SIZE →
      ((calculate_directory_size fs dir_path depth max_items visited
        cache).2.2).length ≤ MAX_DIR_CACHE_SIZE)
    (fun entries depth max_items items_processed visited cache =>
      cache.length ≤ MAX_DIR_CACHE_SIZE →
      ((processEntries fs entries depth max_items items_processed visited
        cache).2.2).length ≤ MAX_DIR_CACHE_SIZE)
    ?_ ?_ ?_ ?_ ?_ ?_ ?_ ?_ ?_ ?_ ?_ ?_
  · intro p d m v c h hc
    rw [calc_depth_exceeded fs p d m v c h]
    exact hc
  · intro p d m v c h hr hc
    rw [calc_resolve_none fs p d m v c h hr]
    exact hc
  · intro p d m v c h r hr hv hc
    rw [calc_visited fs p d m v c r h hr hv]
    exact hc
  · intro p d m v c h r hr hv val hcf hc
    rw [calc_cache_hit fs p d m v c r val h hr hv hcf]
    exact le_trans (manage_length_le c p MAX_DIR_CACHE_SIZE) hc
  · intro p d m v c h r hr hv v1 hcf ih hc
    cases hl : fs.listing p with
    | none =>
      rw [calc_listing_none fs p d m v c r h hr hv hcf hl]
      exact manage_then_set_length c p 0 MAX_DIR_CACHE_SIZE (by decide) hc
    | some es =>
      rw [calc_listing_some fs p d m v c r es h hr hv hcf hl]
      exact manage_then_set_length _ p _ MAX_DIR_CACHE_SIZE (by decide)
        (ih es hc)
  · intro d m ip v c hc
    rw [process_nil]
    exact hc
  · intro d m ip v c e rest h hc
    rw [process_budget fs e rest d m ip v c h]
    exact hc
  · intro d m ip v c e rest h hs ih hc
    rw [process_lstat_none fs e rest d m ip v c h hs]
    exact ih hc
  · intro d m ip v c e rest h st hs hreg ih hc
    rw [process_reg fs e rest d m ip v c st h hs hreg]
    exact ih hc
  · intro d m ip v c e rest h st hs hdir s ih1 ih2 hc
    rw [process_dir fs e rest d m ip v c st h hs hdir]
    exact ih2 (ih1 hc)
  · intro d m ip v c e rest h st hs hft ih hc
    rw [process_skip fs e rest d m ip v c st h hs (by simp [hft])
      (by simp [hft])]
    exact ih hc
  · intro d m ip v c e rest h st hs hft ih hc
    rw [process_skip fs e rest d m ip v c st h hs (by simp [hft])
      (by simp [hft])]
    exact ih hc

theorem no_reg_zero (fs : FS P)
    (hno : ∀ (q : P) (st : LStatInfo), fs.lstat q = some st →
      st.ftype ≠ FType.reg) :
    (∀ (dir_path : P) (depth max_items : Nat) (visited : List P)
        (cache : Cache P),
        (∀ kv ∈ cache, kv.2 = 0) →
        (calculate_directory_size fs dir_path depth max_items visited
          cache).1 = 0 ∧
        ∀ kv ∈ (calculate_directory_size fs dir_path depth max_items
          visited cache).2.2, kv.2 = 0) ∧
    (∀ (entries : List P) (depth max_items items_processed : Nat)
        (visited : List P) (cache : Cache P),
        (∀ kv ∈ cache, kv.2 = 0) →
        (processEntries fs entries depth max_items items_processed visited
          cache).1 = 0 ∧
        ∀ kv ∈ (processEntries fs entries depth max_items items_processed
          visited cache).2.2, kv.2 = 0) := by
  refine calculate_directory_size.mutual_induct fs
    (fun dir_path depth max_items visited cache =>
      (∀ kv ∈ cache, kv.2 = 0) →
      (calculate_directory_size fs dir_path depth max_items visited
        cache).1 = 0 ∧
      ∀ kv ∈ (calculate_directory_size fs dir_path depth max_items visited
        cache).2.2, kv.2 = 0)
    (fun entries depth max_items items_processed visited cache =>
      (∀ kv ∈ cache, kv.2 = 0) →
      (processEntries fs entries depth max_items items_processed visited
        cache).1 = 0 ∧
      ∀ kv ∈ (processEntries fs entries depth max_items items_processed
        visited cache).2.2, kv.2 = 0)
    ?_ ?_ ?_ ?_ ?_ ?_ ?_ ?_ ?_ ?_ ?_ ?_
  · intro p d m v c h hc
    rw [calc_depth_exceeded fs p d m v c h]
    exact ⟨rfl, hc⟩
  · intro p d m v c h hr hc
    rw [calc_resolve_none fs p d m v c h hr]
    exact ⟨rfl, hc⟩
  · intro p d m v c h r hr hv hc
    rw [calc_visited fs p d m v c r h hr hv]
    exact ⟨rfl, hc⟩
  · intro p d m v c h r hr hv val hcf hc
    rw [calc_cache_hit fs p d m v c r val h hr hv hcf]
    exact ⟨hc _ (cacheFind_mem c p val hcf),
      fun kv hkv => hc kv (manage_cache_subset c p _ hkv)⟩
  · intro p d m v c h r hr hv v1 hcf ih hc
    cases hl : fs.listing p with
    | none =>
      rw [calc_listing_none fs p d m v c r h hr hv hcf hl]
      refine ⟨rfl, ?_⟩
      exact cacheSet_values_zero _ p
        (fun kv hkv => hc kv (manage_cache_subset c p _ hkv))
    | some es =>
      rw [calc_listing_some fs p d m v c r es h hr hv hcf hl]
      obtain ⟨htot, hvals⟩ := ih es hc
      refine ⟨htot, ?_⟩
      rw [htot]
      exact cacheSet_values_zero _ p
        (fun kv hkv => hvals kv (manage_cache_subset _ p _ hkv))
  · intro d m ip v c hc
    rw [process_nil]
    exact ⟨rfl, hc⟩
  · intro d m ip v c e rest h hc
    rw [process_budget fs e rest d m ip v c h]
    exact ⟨rfl, hc⟩
  · intro d m ip v c e rest h hs ih hc
    rw [process_lstat_none fs e rest d m ip v c h hs]
    exact ih hc
  · intro d m ip v c e rest h st hs hreg ih hc
    exact absurd hreg (hno e st hs)
  · intro d m ip v c e rest h st hs hdir s ih1 ih2 hc
    rw [process_dir fs e rest d m ip v c st h hs hdir]
    obtain ⟨h1, hvals1⟩ := ih1 hc
    obtain ⟨h2, hvals2⟩ := ih2 hvals1
    have h1' : (calculate_directory_size fs e (d + 1) m v c).1 = 0 := h1
    have h2' : (processEntries fs rest d m (ip + 1)
        (calculate_directory_size fs e (d + 1) m v c).2.1
        (calculate_directory_size fs e (d + 1) m v c).2.2).1 = 0 := h2
    refine ⟨?_, hvals2⟩
    omega
  · intro d m ip v c e rest h st hs hft ih hc
    rw [process_skip fs e rest d m ip v c st h hs (by simp [hft])
      (by simp [hft])]
    exact ih hc
  · intro d m ip v c e rest h st hs hft ih hc
    rw [process_skip fs e rest d m ip v c st h hs (by simp [hft])
      (by simp [hft])]
    exact ih hc

/-! ## Concrete symlink-free directory trees and their expected totals -/

/-- A concrete directory tree: each node carries its `lstat` `st_size`;
`file` is a regular file, `dir` a real directory with its children in
iteration order, `symlink` a symbolic link, `special` any other special
entry (socket, device, fifo, ...). -/
inductive DirTree where
  | file : Nat → DirTree
  | dir : Nat → List DirTree → DirTree
  | symlink : Nat → DirTree
  | special : Nat → DirTree

mutual

/-- The expected total of the spec: each regular file contributes its
`lstat` size, each directory its recursive total, and symlinks and
special entries contribute 0. -/
def treeSum : DirTree → Nat
  | .file n => n
  | .dir _ ts => treeSumList ts
  | .symlink _ => 0
  | .special _ => 0

def treeSumList : List DirTree → Nat
  | [] => 0
  | t :: ts => treeSum t + treeSumList ts

end

mutual

/-- Nesting depth counted in directory levels: a directory is one level
plus the deepest directory nesting among its children. -/
def dirHeight : DirTree → Nat
  | .dir _ ts => 1 + dirHeightList ts
  | _ => 0

def dirHeightList : List DirTree → Nat
  | [] => 0
  | t :: ts => max (dirHeight t) (dirHeightList ts)

end

mutual

/-- Every directory in the tree has at most `m` entries. -/
def boundedBreadth (m : Nat) : DirTree → Bool
  | .dir _ ts => decide (ts.length ≤ m) && boundedBreadthList m ts
  | _ => true

def boundedBreadthList (m : Nat) : List DirTree → Bool
  | [] => true
  | t :: ts => boundedBreadth m t && boundedBreadthList m ts

end

mutual

def treeSize : DirTree → Nat
  | .dir _ ts => 1 + treeSizeList ts
  | _ => 1

def treeSizeList : List DirTree → Nat
  | [] => 0
  | t :: ts => treeSize t + treeSizeList ts

end

/-- Node of the tree at a position (a list of child indices). -/
def lookupTree : List Nat → DirTree → Option DirTree
  | [], t => some t
  | i :: rest, .dir _ ts =>
    match ts[i]? with
    | some c => lookupTree rest c
    | none => none
  | _ :: _, .file _ => none
  | _ :: _, .symlink _ => none
  | _ :: _, .special _ => none

/-- Paths of the `n` children of the directory at path `p`, in iteration
order. -/
def childPaths (p : List Nat) (n : Nat) : List (List Nat) :=
  (List.range n).map (fun i => p ++ [i])

/-- The filesystem presented by a concrete tree: positions are the paths,
no entry is a symlink to another place, so `resolve` is the identity on
existing paths, `listing` lists a directory's children, and `lstat`
reports each node's type and size. Every directory is readable. -/
def treeFS (t : DirTree) : FS (List Nat) where
  resolve p :=
    match lookupTree p t with
    | some _ => some p
    | none => none
  listing p :=
    match lookupTree p t with
    | some (.dir _ ts) => some (childPaths p ts.length)
    | _ => none
  lstat p :=
    match lookupTree p t with
    | some (.file n) => some ⟨FType.reg, n⟩
    | some (.dir n _) => some ⟨FType.dir, n⟩
    | some (.symlink n) => some ⟨FType.symlink, n⟩
    | some (.special n) => some ⟨FType.other, n⟩
    | none => none

theorem lookupTree_append (p q : List Nat) (t : DirTree) :
    lookupTree (p ++ q) t
      = (lookupTree p t).bind (fun s => lookupTree q s) := by
  induction p generalizing t with
  | nil => simp [lookupTree]
  | cons i rest ih =>
    cases t with
    | dir n ts =>
      simp only [List.cons_append, lookupTree]
      cases h : ts[i]? with
      | some c => exact ih c
      | none => rfl
    | file n => rfl
    | symlink n => rfl
    | special n => rfl

theorem lookupTree_child (t0 : DirTree) (p : List Nat) (n : Nat)
    (ts : List DirTree) (j : Nat) (tj : DirTree)
    (hp : lookupTree p t0 = some (.dir n ts)) (hj : ts[j]? = some tj) :
    lookupTree (p ++ [j]) t0 = some tj := by
  rw [lookupTree_append, hp]
  simp [lookupTree, hj]

theorem treeSize_pos (t : DirTree) : 1 ≤ treeSize t := by
  cases t <;> simp [treeSize]

theorem treeSize_le_of_mem {t : DirTree} {ts : List DirTree}
    (h : t ∈ ts) : treeSize t ≤ treeSizeList ts := by
  induction ts with
  | nil => simp at h
  | cons s ts ih =>
    rcases List.mem_cons.1 h with h1 | h2
    · subst h1
      simp [treeSizeList]
    · exact le_trans (ih h2) (by simp [treeSizeList])

theorem dirHeight_le_of_mem {t : DirTree} {ts : List DirTree} (h : t ∈ ts) :
    dirHeight t ≤ dirHeightList ts := by
  induction ts with
  | nil => simp at h
  | cons s ts ih =>
    rcases List.mem_cons.1 h with h1 | h2
    · subst h1
      exact le_max_left _ _ |>.trans (le_of_eq rfl)
    · exact le_trans (ih h2) (le_max_right _ _)

theorem boundedBreadth_of_mem {m : Nat} {t : DirTree} {ts : List DirTree}
    (hb : boundedBreadthList m ts = true) (h : t ∈ ts) :
    boundedBreadth m t = true := by
  induction ts with
  | nil => simp at h
  | cons s ts ih =>
    simp only [boundedBreadthList, Bool.and_eq_true] at hb
    rcases List.mem_cons.1 h with h1 | h2
    · subst h1
      exact hb.1
    · exact ih hb.2 h2

theorem treeSumList_drop (ts : List DirTree) (j : Nat) (tj : DirTree)
    (hj : ts[j]? = some tj) :
    treeSumList (ts.drop j)
      = treeSum tj + treeSumList (ts.drop (j + 1)) := by
  have hlt : j < ts.length := by
    by_contra hge
    rw [List.getElem?_eq_none (le_of_not_lt hge)] at hj
    exact Option.noConfusion hj
  have hget : ts[j] = tj := by
    rw [List.getElem?_eq_getElem hlt] at hj
    exact Option.some.inj hj
  rw [List.drop_eq_getElem_cons hlt, hget]
  rfl

theorem childPos_le (p : List Nat) (i : Nat) : p <+: p ++ [i] := ⟨[i], rfl⟩

theorem childPos_not_self (p : List Nat) (i : Nat) : ¬ p ++ [i] <+: p := by
  intro h
  have := h.length_le
  simp at this

theorem childPos_inj (p : List Nat) (i j : Nat) (q : List Nat)
    (hi : p ++ [i] <+: q) (hj : p ++ [j] <+: q) : i = j := by
  obtain ⟨r, hr⟩ := hi
  obtain ⟨r', hr'⟩ := hj
  rw [← hr'] at hr
  have hinj := List.append_inj hr (by simp)
  have hpi : p ++ [i] = p ++ [j] := hinj.1
  have := List.append_cancel_left hpi
  simpa using this

/-- Correctness of the walk on a concrete tree: at a directory position
`p` of `t0`, provided the depth and breadth bounds hold and neither the
visited set nor the cache mentions any position at or below `p`, the
computed total is the expected recursive file-size sum, and the walk adds
to `visited` and to the cache only positions at or below `p`. -/
theorem tree_walk (t0 : DirTree) (max_items : Nat) :
    ∀ (fuel : Nat) (sz : Nat) (ts : List DirTree),
      treeSize (DirTree.dir sz ts) ≤ fuel →
      ∀ (p : List Nat) (depth : Nat) (visited : List (List Nat))
        (cache : Cache (List Nat)),
      lookupTree p t0 = some (DirTree.dir sz ts) →
      depth + dirHeight (DirTree.dir sz ts) ≤ MAX_DIRECTORY_DEPTH + 1 →
      boundedBreadth max_items (DirTree.dir sz ts) = true →
      (∀ q ∈ visited, ¬ p <+: q) →
      (∀ kv ∈ cache, ¬ p <+: kv.1) →
      (calculate_directory_size (treeFS t0) p depth max_items visited
          cache).1 = treeSum (DirTree.dir sz ts) ∧
      (∀ q ∈ (calculate_directory_size (treeFS t0) p depth max_items
          visited cache).2.1, q ∈ visited ∨ p <+: q) ∧
      (∀ kv ∈ (calculate_directory_size (treeFS t0) p depth max_items
          visited cache).2.2, kv ∈ cache ∨ p <+: kv.1) := by
  intro fuel
  induction fuel with
  | zero =>
    intro sz ts hsize
    have := treeSize_pos (DirTree.dir sz ts)
    omega
  | succ fuel ih =>
    intro sz ts hsize p depth visited cache hp hdepth hbreadth hvis hcache
    have hheight : dirHeight (DirTree.dir sz ts) = 1 + dirHeightList ts :=
      rfl
    have hdl : ¬ MAX_DIRECTORY_DEPTH < depth := by
      simp only [MAX_DIRECTORY_DEPTH] at hdepth ⊢
      omega
    have hres : (treeFS t0).resolve p = some p := by
      simp [treeFS, hp]
    have hpv : p ∉ visited := fun hmem =>
      hvis p hmem ⟨[], List.append_nil p⟩
    have hcf : cacheFind cache p = none := by
      rw [cacheFind_eq_none]
      intro kv hkv heq
      exact hcache kv hkv (by rw [heq])
    have hlist : (treeFS t0).listing p
        = some (childPaths p ts.length) := by
      simp [treeFS, hp]
    simp only [boundedBreadth, Bool.and_eq_true, decide_eq_true_eq]
      at hbreadth
    obtain ⟨hlen, hbl⟩ := hbreadth
    have S2 : ∀ (k j : Nat), j + k = ts.length →
        ∀ (visited' : List (List Nat)) (cache' : Cache (List Nat)),
        (∀ q ∈ visited', ∀ i, j ≤ i → i < ts.length →
          ¬ p ++ [i] <+: q) →
        (∀ kv ∈ cache', ∀ i, j ≤ i → i < ts.length →
          ¬ p ++ [i] <+: kv.1) →
        (processEntries (treeFS t0)
            ((List.range' j k).map (fun i => p ++ [i])) depth max_items j
            visited' cache').1 = treeSumList (ts.drop j) ∧
        (∀ q ∈ (processEntries (treeFS t0)
            ((List.range' j k).map (fun i => p ++ [i])) depth max_items j
            visited' cache').2.1,
          q ∈ visited' ∨ ∃ i, j ≤ i ∧ i < ts.length ∧ p ++ [i] <+: q) ∧
        (∀ kv ∈ (processEntries (treeFS t0)
            ((List.range' j k).map (fun i => p ++ [i])) depth max_items j
            visited' cache').2.2,
          kv ∈ cache' ∨ ∃ i, j ≤ i ∧ i < ts.length ∧
            p ++ [i] <+: kv.1) := by
      intro k
      induction k with
      | zero =>
        intro j hjk visited' cache' hv hc
        have hr0 : List.range' j 0 = ([] : List Nat) := rfl
        rw [hr0, List.map_nil, process_nil]
        have hj : j = ts.length := by omega
        refine ⟨?_, fun q hq => Or.inl hq, fun kv hkv => Or.inl hkv⟩
        rw [hj, List.drop_length]
        rfl
      | succ k ihk =>
        intro j hjk visited' cache' hv hc
        have hjlt : j < ts.length := by omega
        have hrange : (List.range' j (k + 1)).map (fun i => p ++ [i])
            = (p ++ [j])
              :: (List.range' (j + 1) k).map (fun i => p ++ [i]) := by
          rw [List.range'_succ]
          rfl
        rw [hrange]
        have hbud : ¬ max_items ≤ j := by omega
        obtain ⟨tj, hj⟩ : ∃ tj, ts[j]? = some tj := by
          rw [List.getElem?_eq_getElem hjlt]
          exact ⟨_, rfl⟩
        have hlook : lookupTree (p ++ [j]) t0 = some tj :=
          lookupTree_child t0 p sz ts j tj hp hj
        have htjmem : tj ∈ ts := List.getElem?_mem hj
        have hsum := treeSumList_drop ts j tj hj
        cases tj with
        | file nf =>
          have hst : (treeFS t0).lstat (p ++ [j])
              = some ⟨FType.reg, nf⟩ := by
            simp [treeFS, hlook]
          rw [process_reg (treeFS t0) (p ++ [j])
            ((List.range' (j + 1) k).map (fun i => p ++ [i])) depth
            max_items j visited' cache' ⟨FType.reg, nf⟩ hbud hst rfl]
          obtain ⟨ht, hvst, hcst⟩ := ihk (j + 1) (by omega) visited' cache'
            (fun q hq i hi1 hi2 => hv q hq i (by omega) hi2)
            (fun kv hkv i hi1 hi2 => hc kv hkv i (by omega) hi2)
          refine ⟨?_, ?_, ?_⟩
          · rw [hsum]
            rw [ht]
            rfl
          · intro q hq
            rcases hvst q hq with h1 | ⟨i, hi1, hi2, hi3⟩
            · exact Or.inl h1
            · exact Or.inr ⟨i, by omega, hi2, hi3⟩
          · intro kv hkv
            rcases hcst kv hkv with h1 | ⟨i, hi1, hi2, hi3⟩
            · exact Or.inl h1
            · exact Or.inr ⟨i, by omega, hi2, hi3⟩
        | symlink ns =>
          have hst : (treeFS t0).lstat (p ++ [j])
              = some ⟨FType.symlink, ns⟩ := by
            simp [treeFS, hlook]
          rw [process_skip (treeFS t0) (p ++ [j])
            ((List.range' (j + 1) k).map (fun i => p ++ [i])) depth
            max_items j visited' cache' ⟨FType.symlink, ns⟩ hbud hst
            (fun hcon => FType.noConfusion hcon)
            (fun hcon => FType.noConfusion hcon)]
          obtain ⟨ht, hvst, hcst⟩ := ihk (j + 1) (by omega) visited' cache'
            (fun q hq i hi1 hi2 => hv q hq i (by omega) hi2)
            (fun kv hkv i hi1 hi2 => hc kv hkv i (by omega) hi2)
          refine ⟨?_, ?_, ?_⟩
          · rw [hsum, ht]
            have hz : treeSum (DirTree.symlink ns) = 0 := rfl
            omega
          · intro q hq
            rcases hvst q hq with h1 | ⟨i, hi1, hi2, hi3⟩
            · exact Or.inl h1
            · exact Or.inr ⟨i, by omega, hi2, hi3⟩
          · intro kv hkv
            rcases hcst kv hkv with h1 | ⟨i, hi1, hi2, hi3⟩
            · exact Or.inl h1
            · exact Or.inr ⟨i, by omega, hi2, hi3⟩
        | special ns =>
          have hst : (treeFS t0).lstat (p ++ [j])
              = some ⟨FType.other, ns⟩ := by
            simp [treeFS, hlook]
          rw [process_skip (treeFS t0) (p ++ [j])
            ((List.range' (j + 1) k).map (fun i => p ++ [i])) depth
            max_items j visited' cache' ⟨FType.other, ns⟩ hbud hst
            (fun hcon => FType.noConfusion hcon)
            (fun hcon => FType.noConfusion hcon)]
          obtain ⟨ht, hvst, hcst⟩ := ihk (j + 1) (by omega) visited' cache'
            (fun q hq i hi1 hi2 => hv q hq i (by omega) hi2)
            (fun kv hkv i hi1 hi2 => hc kv hkv i (by omega) hi2)
          refine ⟨?_, ?_, ?_⟩
          · rw [hsum, ht]
            have hz : treeSum (DirTree.special ns) = 0 := rfl
            omega
          · intro q hq
            rcases hvst q hq with h1 | ⟨i, hi1, hi2, hi3⟩
            · exact Or.inl h1
            · exact Or.inr ⟨i, by omega, hi2, hi3⟩
          · intro kv hkv
            rcases hcst kv hkv with h1 | ⟨i, hi1, hi2, hi3⟩
            · exact Or.inl h1
            · exact Or.inr ⟨i, by omega, hi2, hi3⟩
        | dir nd ts' =>
          have hst : (treeFS t0).lstat (p ++ [j])
              = some ⟨FType.dir, nd⟩ := by
            simp [treeFS, hlook]
          rw [process_dir (treeFS t0) (p ++ [j])
            ((List.range' (j + 1) k).map (fun i => p ++ [i])) depth
            max_items j visited' cache' ⟨FType.dir, nd⟩ hbud hst rfl]
          have hsz' : treeSize (DirTree.dir nd ts') ≤ fuel := by
            have h1 : treeSize (DirTree.dir nd ts') ≤ treeSizeList ts :=
              treeSize_le_of_mem htjmem
            have h2 : treeSize (DirTree.dir sz ts)
                = 1 + treeSizeList ts := rfl
            omega
          have hdep' : (depth + 1) + dirHeight (DirTree.dir nd ts')
              ≤ MAX_DIRECTORY_DEPTH + 1 := by
            have h1 : dirHeight (DirTree.dir nd ts') ≤ dirHeightList ts :=
              dirHeight_le_of_mem htjmem
            omega
          have hbr' : boundedBreadth max_items (DirTree.dir nd ts')
              = true := boundedBreadth_of_mem hbl htjmem
          obtain ⟨hct, hcv, hcc⟩ := ih nd ts' hsz' (p ++ [j]) (depth + 1)
            visited' cache' hlook hdep' hbr'
            (fun q hq hpre => hv q hq j (le_refl j) hjlt hpre)
            (fun kv hkv hpre => hc kv hkv j (le_refl j) hjlt hpre)
          obtain ⟨ht, hvst, hcst⟩ := ihk (j + 1) (by omega)
            (calculate_directory_size (treeFS t0) (p ++ [j]) (depth + 1)
              max_items visited' cache').2.1
            (calculate_directory_size (treeFS t0) (p ++ [j]) (depth + 1)
              max_items visited' cache').2.2
            (by
              intro q hq i hi1 hi2 hpre
              rcases hcv q hq with h1 | h2
              · exact hv q h1 i (by omega) hi2 hpre
              · exact absurd (childPos_inj p i j q hpre h2) (by omega))
            (by
              intro kv hkv i hi1 hi2 hpre
              rcases hcc kv hkv with h1 | h2
              · exact hc kv h1 i (by omega) hi2 hpre
              · exact absurd (childPos_inj p i j kv.1 hpre h2) (by omega))
          refine ⟨?_, ?_, ?_⟩
          · rw [hct, ht, hsum]
          · intro q hq
            rcases hvst q hq with h1 | ⟨i, hi1, hi2, hi3⟩
            · rcases hcv q h1 with h2 | h3
              · exact Or.inl h2
              · exact Or.inr ⟨j, le_refl j, hjlt, h3⟩
            · exact Or.inr ⟨i, by omega, hi2, hi3⟩
          · intro kv hkv
            rcases hcst kv hkv with h1 | ⟨i, hi1, hi2, hi3⟩
            · rcases hcc kv h1 with h2 | h3
              · exact Or.inl h2
              · exact Or.inr ⟨j, le_refl j, hjlt, h3⟩
            · exact Or.inr ⟨i, by omega, hi2, hi3⟩
    rw [calc_listing_some (treeFS t0) p depth max_items visited cache p
      (childPaths p ts.length) hdl hres hpv hcf hlist]
    have hentries : childPaths p ts.length
        = (List.range' 0 ts.length).map (fun i => p ++ [i]) := by
      rw [childPaths, List.range_eq_range']
    obtain ⟨ht, hvst, hcst⟩ := S2 ts.length 0 (by omega)
      (p :: visited) cache
      (by
        intro q hq i hi1 hi2 hpre
        rcases List.mem_cons.1 hq with h1 | h2
        · exact childPos_not_self p i (h1 ▸ hpre)
        · exact hvis q h2 ((childPos_le p i).trans hpre))
      (by
        intro kv hkv i hi1 hi2 hpre
        exact hcache kv hkv ((childPos_le p i).trans hpre))
    rw [hentries]
    have hwalkfind : cacheFind
        (processEntries (treeFS t0)
          ((List.range' 0 ts.length).map (fun i => p ++ [i])) depth
          max_items 0 (p :: visited) cache).2.2 p = none := by
      rw [cacheFind_eq_none]
      intro kv hkv heq
      rcases hcst kv hkv with h1 | ⟨i, hi1, hi2, hi3⟩
      · exact hcache kv h1 (by rw [heq])
      · exact childPos_not_self p i (heq ▸ hi3)
    refine ⟨?_, ?_, ?_⟩
    · rw [ht]
      rw [List.drop_zero]
      rfl
    · intro q hq
      rcases hvst q hq with h1 | ⟨i, hi1, hi2, hi3⟩
      · rcases List.mem_cons.1 h1 with h2 | h3
        · exact Or.inr (by rw [h2])
        · exact Or.inl h3
      · exact Or.inr ((childPos_le p i).trans hi3)
    · intro kv hkv
      have hsubset : ∀ kv' ∈ cacheSet
          (manage_cache
            (processEntries (treeFS t0)
              ((List.range' 0 ts.length).map (fun i => p ++ [i])) depth
              max_items 0 (p :: visited) cache).2.2 p MAX_DIR_CACHE_SIZE)
          p
          (processEntries (treeFS t0)
            ((List.range' 0 ts.length).map (fun i => p ++ [i])) depth
            max_items 0 (p :: visited) cache).1,
          kv' ∈ (processEntries (treeFS t0)
            ((List.range' 0 ts.length).map (fun i => p ++ [i])) depth
            max_items 0 (p :: visited) cache).2.2 ∨
          kv'.1 = p := by
        intro kv' hkv'
        have hmf : cacheFind
            (manage_cache
              (processEntries (treeFS t0)
                ((List.range' 0 ts.length).map (fun i => p ++ [i])) depth
                max_items 0 (p :: visited) cache).2.2 p
              MAX_DIR_CACHE_SIZE) p = none := by
          rw [cacheFind_eq_none]
          intro kv2 hkv2 heq2
          have := manage_cache_subset _ p MAX_DIR_CACHE_SIZE hkv2
          rw [cacheFind_eq_none] at hwalkfind
          exact hwalkfind kv2 this heq2
        unfold cacheSet at hkv'
        rw [hmf] at hkv'
        simp only [Option.isSome_none, Bool.false_eq_true, if_false]
          at hkv'
        rcases List.mem_append.1 hkv' with h1 | h2
        · exact Or.inl (manage_cache_subset _ p MAX_DIR_CACHE_SIZE h1)
        · simp only [List.mem_singleton] at h2
          exact Or.inr (by rw [h2])
      rcases hsubset kv hkv with h1 | h2
      · rcases hcst kv h1 with h3 | ⟨i, hi1, hi2, hi3⟩
        · exact Or.inl h3
        · exact Or.inr ((childPos_le p i).trans hi3)
      · exact Or.inr (by rw [h2])

theorem eraseKey_of_find_none (c : Cache P) (k : P)
    (h : cacheFind c k = none) : eraseKey c k = c := by
  induction c with
  | nil => rfl
  | cons kv rest ih =>
    obtain ⟨k', v⟩ := kv
    by_cases hk : k' = k
    · simp [cacheFind, hk] at h
    · simp only [cacheFind, if_neg hk] at h
      simp only [eraseKey, if_neg hk]
      rw [ih h]

theorem eraseKey_length_nodup (c : Cache P) (k : P) (v : Nat)
    (hnd : (c.map Prod.fst).Nodup) (h : cacheFind c k = some v) :
    (eraseKey c k).length + 1 = c.length := by
  induction c with
  | nil => simp [cacheFind] at h
  | cons kv rest ih =>
    obtain ⟨k', v'⟩ := kv
    simp only [List.map_cons, List.nodup_cons] at hnd
    by_cases hk : k' = k
    · subst hk
      have hnone : cacheFind rest k' = none := by
        rw [cacheFind_eq_none]
        intro kv2 hkv2 heq
        exact hnd.1 (heq ▸ List.mem_map_of_mem Prod.fst hkv2)
      simp only [eraseKey, if_pos rfl]
      rw [eraseKey_of_find_none rest k' hnone]
      simp
    · simp only [cacheFind, if_neg hk] at h
      simp only [eraseKey, if_neg hk, List.length_cons]
      have := ih hnd.2 h
      omega

/-- The LRU scenario of the spec: in a full cache with distinct keys, a
hit on `k1` (promotion via `_manage_cache`) followed by the insertion of
a fresh key `knew` (eviction via `_manage_cache`, then assignment) keeps
`k1` with its value, stores `knew`, evicts the entry that was oldest
before the promotion (when it is not `k1` itself), and keeps the size at
the capacity. -/
theorem lru_promote_insert (c : Cache P) (k1 knew : P) (v1 w : Nat)
    (n : Nat) (hnd : (c.map Prod.fst).Nodup) (hlen : c.length = n)
    (h2 : 2 ≤ n) (h1 : cacheFind c k1 = some v1)
    (hnew : cacheFind c knew = none) :
    cacheFind (cacheSet (manage_cache (manage_cache c k1 n) knew n) knew w)
      k1 = some v1 ∧
    cacheFind (cacheSet (manage_cache (manage_cache c k1 n) knew n) knew w)
      knew = some w ∧
    (∀ kv0, c.head? = some kv0 → kv0.1 ≠ k1 →
      cacheFind (cacheSet (manage_cache (manage_cache c k1 n) knew n)
        knew w) kv0.1 = none) ∧
    (cacheSet (manage_cache (manage_cache c k1 n) knew n) knew w).length
      = n := by
  have hk1new : knew ≠ k1 := by
    intro he
    rw [he, h1] at hnew
    exact Option.noConfusion hnew
  have herase : ∀ kv ∈ eraseKey c k1, kv.1 ≠ k1 := by
    have := cacheFind_eraseKey_self c k1
    rw [cacheFind_eq_none] at this
    exact this
  have heknew : ∀ kv ∈ eraseKey c k1, kv.1 ≠ knew := by
    intro kv hkv
    rw [cacheFind_eq_none] at hnew
    exact hnew kv (eraseKey_subset c k1 hkv)
  have hc1 : manage_cache c k1 n = eraseKey c k1 ++ [(k1, v1)] := by
    unfold manage_cache moveToEnd
    rw [h1]
    simp
  have heklen : (eraseKey c k1).length + 1 = n := by
    rw [← hlen]
    exact eraseKey_length_nodup c k1 v1 hnd h1
  have hfind1new : cacheFind (eraseKey c k1 ++ [(k1, v1)]) knew
      = none := by
    rw [cacheFind_eq_none]
    intro kv hkv
    rcases List.mem_append.1 hkv with ha | hb
    · exact fun heq => heknew kv ha heq
    · simp only [List.mem_singleton] at hb
      subst hb
      exact fun heq => hk1new heq.symm
  have hc2 : manage_cache (manage_cache c k1 n) knew n
      = (eraseKey c k1).drop 1 ++ [(k1, v1)] := by
    rw [hc1]
    unfold manage_cache
    rw [hfind1new]
    have hlen1 : n ≤ (eraseKey c k1 ++ [(k1, v1)]).length := by
      simp only [List.length_append, List.length_cons, List.length_nil]
      omega
    simp only [Option.isSome_none, Bool.false_eq_true, if_false,
      hlen1, if_true]
    unfold popOldest
    rw [List.drop_append_of_le_length (by omega)]
  have hdropsub : ∀ kv ∈ (eraseKey c k1).drop 1, kv ∈ eraseKey c k1 :=
    fun kv => List.mem_of_mem_drop
  have hfind2new : cacheFind ((eraseKey c k1).drop 1 ++ [(k1, v1)]) knew
      = none := by
    rw [cacheFind_eq_none]
    intro kv hkv
    rcases List.mem_append.1 hkv with ha | hb
    · exact fun heq => heknew kv (hdropsub kv ha) heq
    · simp only [List.mem_singleton] at hb
      subst hb
      exact fun heq => hk1new heq.symm
  have hc3 : cacheSet (manage_cache (manage_cache c k1 n) knew n) knew w
      = ((eraseKey c k1).drop 1 ++ [(k1, v1)]) ++ [(knew, w)] := by
    rw [hc2]
    unfold cacheSet
    rw [hfind2new]
    simp
  rw [hc3]
  have hdropnone : ∀ q, (∀ kv ∈ (eraseKey c k1).drop 1, kv.1 ≠ q) →
      cacheFind ((eraseKey c k1).drop 1) q = none := by
    intro q hq
    rw [cacheFind_eq_none]
    exact hq
  refine ⟨?_, ?_, ?_, ?_⟩
  · rw [List.append_assoc,
      cacheFind_append_of_none _ _ _
        (hdropnone k1 (fun kv hkv => herase kv (hdropsub kv hkv)))]
    simp [cacheFind, hk1new]
  · rw [List.append_assoc,
      cacheFind_append_of_none _ _ _
        (hdropnone knew (fun kv hkv => heknew kv (hdropsub kv hkv)))]
    simp only [List.cons_append, List.nil_append, cacheFind,
      if_neg (fun heq => hk1new (Eq.symm heq))]
    simp [cacheFind]
  · intro kv0 hhead hne
    cases c with
    | nil => exact Option.noConfusion hhead
    | cons kva rest =>
      obtain ⟨ka, va⟩ := kva
      simp only [List.head?_cons] at hhead
      have hkv0 : kv0 = (ka, va) := (Option.some.inj hhead).symm
      have hka : kv0.1 = ka := by rw [hkv0]
      rw [hka] at hne ⊢
      simp only [List.map_cons, List.nodup_cons] at hnd
      have hknew0 : knew ≠ ka := by
        rw [cacheFind_eq_none] at hnew
        intro heq
        exact hnew (ka, va) (List.mem_cons_self _ _) heq.symm
      have hek : eraseKey ((ka, va) :: rest) k1
          = (ka, va) :: eraseKey rest k1 := by
        simp only [eraseKey, if_neg hne]
      rw [hek]
      simp only [List.drop_succ_cons, List.drop_zero]
      have hnotin : ∀ kv ∈ eraseKey rest k1, kv.1 ≠ ka := by
        intro kv hkv heq
        exact hnd.1 (heq ▸
          List.mem_map_of_mem Prod.fst (eraseKey_subset rest k1 hkv))
      rw [List.append_assoc,
        cacheFind_append_of_none _ _ _ (by
          rw [cacheFind_eq_none]
          exact hnotin)]
      simp only [List.cons_append, List.nil_append, cacheFind,
        if_neg (fun heq => hne (Eq.symm heq)),
        if_neg hknew0]
  · simp only [List.length_append, List.length_cons, List.length_nil,
      List.length_drop]
    omega

/-- Entries past the `max_items` budget are never examined: appending
`extra` entries beyond the point where the budget runs out does not change
anything the loop computes. -/
theorem process_truncate (fs : FS P) :
    ∀ (es extra : List P) (depth max_items items_processed : Nat)
      (visited : List P) (cache : Cache P),
      max_items ≤ items_processed + es.length →
      processEntries fs (es ++ extra) depth max_items items_processed
        visited cache
        = processEntries fs es depth max_items items_processed visited
            cache := by
  intro es
  induction es with
  | nil =>
    intro extra d m ip v c hcap
    simp only [List.length_nil, Nat.add_zero] at hcap
    cases extra with
    | nil => rfl
    | cons e r =>
      rw [List.nil_append, process_budget fs e r d m ip v c hcap,
        process_nil]
  | cons e es ih =>
    intro extra d m ip v c hcap
    simp only [List.length_cons] at hcap
    by_cases hb : m ≤ ip
    · rw [List.cons_append, process_budget fs _ _ d m ip v c hb,
        process_budget fs e es d m ip v c hb]
    · rw [List.cons_append]
      cases hs : fs.lstat e with
      | none =>
        rw [process_lstat_none fs e _ d m ip v c hb hs,
          process_lstat_none fs e es d m ip v c hb hs]
        exact ih extra d m (ip + 1) v c (by omega)
      | some st =>
        cases hft : st.ftype with
        | reg =>
          rw [process_reg fs e _ d m ip v c st hb hs hft,
            process_reg fs e es d m ip v c st hb hs hft]
          rw [ih extra d m (ip + 1) v c (by omega)]
        | dir =>
          rw [process_dir fs e _ d m ip v c st hb hs hft,
            process_dir fs e es d m ip v c st hb hs hft]
          rw [ih extra d m (ip + 1) _ _ (by omega)]
        | symlink =>
          rw [process_skip fs e _ d m ip v c st hb hs
              (by simp [hft]) (by simp [hft]),
            process_skip fs e es d m ip v c st hb hs
              (by simp [hft]) (by simp [hft])]
          exact ih extra d m (ip + 1) v c (by omega)
        | other =>
          rw [process_skip fs e _ d m ip v c st hb hs
              (by simp [hft]) (by simp [hft]),
            process_skip fs e es d m ip v c st hb hs
              (by simp [hft]) (by simp [hft])]
          exact ih extra d m (ip + 1) v c (by omega)

/-! ## FileInfo, app results, and select_file -/

/-- The `FileInfo` dataclass (file_info.py lines 26-65): ten optional
fields, all defaulting to `None`. `datetime` values are modelled as
integer timestamps and `Path` values as strings. -/
structure FileInfo where
  file_path : Option String
  folder_path : Option String
  last_modified_datetime : Option Int
  creation_datetime : Option Int
  size_in_bytes : Option Nat
  readonly : Option Bool
  folder_has_venv : Option Bool
  is_symlink : Option Bool
  symlink_broken : Option Bool
  error_message : Option String
deriving DecidableEq, Repr

/-- `all(value is None for value in result.as_tuple())` (__init__.py line
110): true iff all ten fields are `None`. -/
def FileInfo.allFieldsNone (f : FileInfo) : Bool :=
  f.file_path.isNone && f.folder_path.isNone
    && f.last_modified_datetime.isNone && f.creation_datetime.isNone
    && f.size_in_bytes.isNone && f.readonly.isNone
    && f.folder_has_venv.isNone && f.is_symlink.isNone
    && f.symlink_broken.isNone && f.error_message.isNone

/-- `FileInfo.path` (file_info.py lines 82-85):
`self.file_path or self.folder_path`. -/
def FileInfo.path (f : FileInfo) : Option String :=
  match f.file_path with
  | some p => some p
  | none => f.folder_path

/-- The all-`None` `FileInfo` that `action_quit` exits with on user
cancellation (file_browser_app.py lines 1290-1305). -/
def cancelInfo : FileInfo :=
  { file_path := none, folder_path := none,
    last_modified_datetime := none, creation_datetime := none,
    size_in_bytes := none, readonly := none, folder_has_venv := none,
    is_symlink := none, symlink_broken := none, error_message := none }

/-- The `FileInfo` built by `_create_file_info` on success
(file_browser_app.py lines 1210-1236), parametrised by the values the
surrounding code obtained from the OS: the chosen path and kind, the
`lstat` timestamps, the file or computed directory size, writability, the
venv check, and the symlink flags. `error_message` is left at its `None`
default. -/
def mkSuccessInfo (path : String) (is_file : Bool) (mtime ctime : Int)
    (file_size dir_size : Nat) (writable venv is_sym sym_broken : Bool) :
    FileInfo :=
  { file_path := if is_file then some path else none,
    folder_path := if is_file then none else some path,
    last_modified_datetime := some mtime,
    creation_datetime := some ctime,
    size_in_bytes := some (if is_file then file_size else dir_size),
    readonly := some (!writable),
    folder_has_venv := if is_file then none else some venv,
    is_symlink := some is_sym,
    symlink_broken := some sym_broken,
    error_message := none }

/-- The `FileInfo` built by `_create_file_info` when gathering metadata
raises `OSError`/`IOError`/`PermissionError`/`ValueError`
(file_browser_app.py lines 1237-1245): only the path field of the chosen
kind and the error message are set; every other field is `None`. -/
def mkErrorInfo (path : String) (is_file : Bool) (err : String) :
    FileInfo :=
  { file_path := if is_file then some path else none,
    folder_path := if is_file then none else some path,
    last_modified_datetime := none, creation_datetime := none,
    size_in_bytes := none, readonly := none, folder_has_venv := none,
    is_symlink := none, symlink_broken := none,
    error_message := some err }

/-- The possible values of `app.run()` seen by `select_file`: no exit
value, the cancellation info from `action_quit`, a success info, or an
error info from `_create_file_info`. -/
inductive AppProduced : Option FileInfo → Prop where
  | no_result : AppProduced none
  | cancelled : AppProduced (some cancelInfo)
  | success (path : String) (is_file : Bool) (mtime ctime : Int)
      (file_size dir_size : Nat)
      (writable venv is_sym sym_broken : Bool) :
      AppProduced (some (mkSuccessInfo path is_file mtime ctime file_size
        dir_size writable venv is_sym sym_broken))
  | failure (path : String) (is_file : Bool) (err : String) :
      AppProduced (some (mkErrorInfo path is_file err))

/-- What `select_file` returns to its caller: `None`, a plain path string
(legacy mode), or the `FileInfo` object. -/
inductive SelectFileReturn where
  | noSelection : SelectFileReturn
  | pathString : String → SelectFileReturn
  | info : FileInfo → SelectFileReturn
deriving DecidableEq, Repr

/-- Post-processing of the app result in `select_file` (__init__.py lines
105-121): a `None` result stays `None`; a `FileInfo` whose ten fields are
all `None` is the cancellation shape and becomes `None`; otherwise, in
legacy mode (`return_info = false`) the `path_str` is returned (which is
`None` when both path fields are `None`), else the `FileInfo` itself. -/
def select_file_postprocess (result : Option FileInfo)
    (return_info : Bool) : SelectFileReturn :=
  match result with
  | none => SelectFileReturn.noSelection
  | some info =>
    if info.allFieldsNone then SelectFileReturn.noSelection
    else if !return_info then
      match info.path with
      | some p => SelectFileReturn.pathString p
      | none => SelectFileReturn.noSelection
    else SelectFileReturn.info info

/-- Environment for `select_file` argument validation: the current
working directory, `os.path.isdir`, and `os.access(..., os.R_OK)`. -/
structure Env where
  cwd : String
  isDir : String → Bool
  isReadable : String → Bool

/-- Outcome of the validation prefix of `select_file`: either a
`ValueError` with its message, raised before the browser app is created,
or the browser is launched at the validated start path. -/
inductive Validation where
  | error : String → Validation
  | launch : String → Validation
deriving DecidableEq, Repr

/-- The validation prefix of `select_file` (__init__.py lines 74-84): a
`None` start path is replaced by the current working directory (and is
then not checked further, note the `elif`s); a given start path must be
an existing directory and readable; at least one of `select_files`,
`select_dirs` must be true. -/
def select_file_validate (env : Env) (start_path : Option String)
    (select_files select_dirs : Bool) : Validation :=
  match start_path with
  | none =>
    if !select_files && !select_dirs then
      Validation.error
        "At least one of select_files or select_dirs must be True"
    else Validation.launch env.cwd
  | some p =>
    if !(env.isDir p) then
      Validation.error ("Start path must be a valid directory: " ++ p)
    else if !(env.isReadable p) then
      Validation.error ("Start path must be readable: " ++ p)
    else if !select_files && !select_dirs then
      Validation.error
        "At least one of select_files or select_dirs must be True"
    else Validation.launch p

/-! ## Example filesystems for the witnesses -/

/-- A directory cycle: directory `0` (say `a`) contains entry `2`
(`a/link_to_b`), which resolves to directory `1` (`b`); entry `2` lists
entry `3` (`a/link_to_b/link_to_a`), which resolves back to `0`. `lstat`
reports the linking entries as directories (as for a bind mount), so only
the per-call visited set of resolved real paths stops the recursion.
There are no regular files anywhere. -/
def cycFS : FS Nat where
  resolve p := if p = 2 then some 1 else if p = 3 then some 0 else some p
  listing p :=
    if p = 0 then some [2] else if p = 2 then some [3] else none
  lstat p :=
    if p = 0 ∨ p = 1 ∨ p = 2 ∨ p = 3 then some ⟨FType.dir, 4096⟩
    else none

/-- A directory `0` whose three entries `1`, `2`, `3` are regular files
of sizes 1, 2 and 3; entry `9` has no readable `lstat`. -/
def wideFS : FS Nat where
  resolve p := some p
  listing p := if p = 0 then some [1, 2, 3] else none
  lstat p :=
    if p = 1 ∨ p = 2 ∨ p = 3 then some ⟨FType.reg, p⟩ else none

/-- A filesystem where path `5` cannot be resolved and nothing can be
listed or stat-ed: every operation fails with an `OSError`. -/
def errFS : FS Nat where
  resolve p := if p = 5 then none else some p
  listing _ := none
  lstat _ := none

/-! ## The claims -/

/-- C1: for every readable directory tree within the depth and breadth
bounds and containing no repeated real paths (a `treeFS` tree: every
directory readable, every position its own distinct real path),
`calculate_directory_size` started at the root with a fresh visited set
and an empty cache returns exactly the recursive sum of the `lstat` sizes
of the regular files in the subtree (`treeSum`): regular files contribute
`st_size`, real directories their recursive totals, and symlinks,
sockets, devices and other special entries contribute 0 and are never
descended into. -/
theorem C1_size_is_recursive_file_sum (sz : Nat) (ts : List DirTree)
    (max_items : Nat)
    (hdepth : dirHeight (DirTree.dir sz ts) ≤ MAX_DIRECTORY_DEPTH + 1)
    (hbreadth : boundedBreadth max_items (DirTree.dir sz ts) = true) :
    (calculate_directory_size (treeFS (DirTree.dir sz ts)) [] 0 max_items
      [] []).1 = treeSum (DirTree.dir sz ts) :=
  (tree_walk (DirTree.dir sz ts) max_items (treeSize (DirTree.dir sz ts))
    sz ts (le_refl _) [] 0 [] [] rfl (by omega) hbreadth
    (fun q hq => absurd hq (List.not_mem_nil q))
    (fun kv hkv => absurd hkv (List.not_mem_nil kv))).1

/-- Witness for C1 at the spec's example: root file of 50 bytes, a
subdirectory with a 100-byte file and a nested subdirectory holding
200-byte and 300-byte files; the total is 650. -/
theorem C1_size_is_recursive_file_sum_witness :
    dirHeight (DirTree.dir 4096 [DirTree.file 50, DirTree.dir 4096
        [DirTree.file 100, DirTree.dir 4096
          [DirTree.file 200, DirTree.file 300]]])
      ≤ MAX_DIRECTORY_DEPTH + 1 ∧
    boundedBreadth 1000 (DirTree.dir 4096 [DirTree.file 50,
        DirTree.dir 4096 [DirTree.file 100, DirTree.dir 4096
          [DirTree.file 200, DirTree.file 300]]]) = true ∧
    (calculate_directory_size (treeFS (DirTree.dir 4096 [DirTree.file 50,
        DirTree.dir 4096 [DirTree.file 100, DirTree.dir 4096
          [DirTree.file 200, DirTree.file 300]]])) [] 0 1000 [] []).1
      = treeSum (DirTree.dir 4096 [DirTree.file 50, DirTree.dir 4096
          [DirTree.file 100, DirTree.dir 4096
            [DirTree.file 200, DirTree.file 300]]]) ∧
    treeSum (DirTree.dir 4096 [DirTree.file 50, DirTree.dir 4096
        [DirTree.file 100, DirTree.dir 4096
          [DirTree.file 200, DirTree.file 300]]]) = 650 :=
  ⟨by decide, by decide,
   C1_size_is_recursive_file_sum 4096 [DirTree.file 50, DirTree.dir 4096
     [DirTree.file 100, DirTree.dir 4096
       [DirTree.file 200, DirTree.file 300]]] 1000 (by decide)
     (by decide),
   by decide⟩

/-- C2: termination mechanisms of `calculate_directory_size` (the Lean
embedding is total by construction, mirroring the depth guard): a call
whose depth exceeds `MAX_DIRECTORY_DEPTH = 100` returns 0 without
touching any state; a directory whose resolved real path is already in
the per-call visited set contributes 0 without being descended into; and
on a filesystem with no regular files at all (only directories, symlinks
and special entries — in particular on symlink directory cycles) the
result starting from an empty cache is 0, i.e. the total reflects only
regular (non-symlink) file contents. -/
theorem C2_termination_mechanisms :
    (∀ (fs : FS P) (p : P) (d m : Nat) (v : List P) (c : Cache P),
      MAX_DIRECTORY_DEPTH < d →
      calculate_directory_size fs p d m v c = (0, v, c)) ∧
    (∀ (fs : FS P) (p : P) (d m : Nat) (v : List P) (c : Cache P) (r : P),
      ¬ MAX_DIRECTORY_DEPTH < d → fs.resolve p = some r → r ∈ v →
      calculate_directory_size fs p d m v c = (0, v, c)) ∧
    (∀ (fs : FS P) (p : P) (d m : Nat) (v : List P),
      (∀ (q : P) (st : LStatInfo),
        fs.lstat q = some st → st.ftype ≠ FType.reg) →
      (calculate_directory_size fs p d m v []).1 = 0) :=
  ⟨fun fs p d m v c h => calc_depth_exceeded fs p d m v c h,
   fun fs p d m v c r h hr hv => calc_visited fs p d m v c r h hr hv,
   fun fs p d m v hno =>
     ((no_reg_zero fs hno).1 p d m v []
       (fun kv hkv => absurd hkv (List.not_mem_nil kv))).1⟩

/-- Witness for C2 on the directory cycle `cycFS`
(`a/link_to_b → b`, `b/link_to_a → a`): the depth guard, the visited-set
guard, and the zero total of a cycle containing no regular files. -/
theorem C2_termination_mechanisms_witness :
    MAX_DIRECTORY_DEPTH < 101 ∧
    calculate_directory_size cycFS 0 101 1000 [] [] = (0, [], []) ∧
    cycFS.resolve 3 = some 0 ∧
    calculate_directory_size cycFS 3 1 1000 [0] [] = (0, [0], []) ∧
    (calculate_directory_size cycFS 0 0 1000 [] []).1 = 0 := by
  have hno : ∀ (q : Nat) (st : LStatInfo),
      cycFS.lstat q = some st → st.ftype ≠ FType.reg := by
    intro q st h
    simp only [cycFS] at h
    by_cases hq : q = 0 ∨ q = 1 ∨ q = 2 ∨ q = 3
    · rw [if_pos hq] at h
      injection h with h
      rw [← h]
      decide
    · rw [if_neg hq] at h
      exact Option.noConfusion h
  refine ⟨by decide, ?_, by decide, ?_, ?_⟩
  · exact C2_termination_mechanisms.1 cycFS 0 101 1000 [] [] (by decide)
  · exact C2_termination_mechanisms.2.1 cycFS 3 1 1000 [0] [] 0
      (by decide) (by decide) (by decide)
  · exact C2_termination_mechanisms.2.2 cycFS 0 0 1000 [] hno

/-- C3: error degradation. A path that cannot be resolved contributes 0
with no state change; a directory that cannot be listed (with a fresh
cache entry) yields total 0; and an entry whose `lstat` fails contributes
0 while the enclosing walk simply continues with the next entry. The
function always returns a natural number — no exception escapes in the
embedding, matching the `try`/`except` blocks in the source. -/
theorem C3_error_degradation :
    (∀ (fs : FS P) (p : P) (d m : Nat) (v : List P) (c : Cache P),
      ¬ MAX_DIRECTORY_DEPTH < d → fs.resolve p = none →
      calculate_directory_size fs p d m v c = (0, v, c)) ∧
    (∀ (fs : FS P) (p : P) (d m : Nat) (v : List P) (c : Cache P) (r : P),
      ¬ MAX_DIRECTORY_DEPTH < d → fs.resolve p = some r → r ∉ v →
      cacheFind c p = none → fs.listing p = none →
      (calculate_directory_size fs p d m v c).1 = 0) ∧
    (∀ (fs : FS P) (e : P) (rest : List P) (d m ip : Nat) (v : List P)
        (c : Cache P),
      ¬ m ≤ ip → fs.lstat e = none →
      processEntries fs (e :: rest) d m ip v c
        = processEntries fs rest d m (ip + 1) v c) :=
  ⟨fun fs p d m v c h hr => calc_resolve_none fs p d m v c h hr,
   fun fs p d m v c r h hr hv hc hl => by
     rw [calc_listing_none fs p d m v c r h hr hv hc hl],
   fun fs e rest d m ip v c h hs =>
     process_lstat_none fs e rest d m ip v c h hs⟩

/-- Witness for C3 on `errFS`: unresolvable path `5` gives 0; unlistable
directory `0` gives 0; un-stat-able entry `7` is skipped and the walk
continues. -/
theorem C3_error_degradation_witness :
    errFS.resolve 5 = none ∧
    calculate_directory_size errFS 5 0 1000 [] [] = (0, [], []) ∧
    errFS.listing 0 = none ∧
    (calculate_directory_size errFS 0 0 1000 [] []).1 = 0 ∧
    processEntries errFS [7, 8] 0 1000 0 [] []
      = processEntries errFS [8] 0 1000 1 [] [] := by
  refine ⟨by decide, ?_, rfl, ?_, ?_⟩
  · exact C3_error_degradation.1 errFS 5 0 1000 [] [] (by decide)
      (by decide)
  · exact C3_error_degradation.2.1 errFS 0 0 1000 [] [] 0 (by decide)
      (by decide) (by decide) (by decide) rfl
  · exact C3_error_degradation.2.2 errFS 7 [8] 0 1000 0 [] [] (by decide)
      rfl

/-- C4: the directory-size cache. (1) Any call started with at most
`MAX_DIR_CACHE_SIZE = 500` cached entries ends with at most 500 entries —
so under every sequence of calls from the initially empty cache the bound
holds. (2) A cache hit is keyed on the literal `dir_path` (even though the
resolved `real_path` may differ): it returns the cached value and only
promotes the key via `_manage_cache`; the right-hand side does not involve
`fs.listing`, so no re-walk happens. (3) Inserting a new key into a full
cache first evicts the oldest entry and appends the new key at the
most-recently-used end. (4) In a full cache with distinct keys, a key
promoted by a hit survives the eviction caused by inserting a fresh key,
while the entry that was least recently used is the one removed. -/
theorem C4_lru_cache (fs : FS P) :
    (∀ (p : P) (d m : Nat) (v : List P) (c : Cache P),
      c.length ≤ MAX_DIR_CACHE_SIZE →
      ((calculate_directory_size fs p d m v c).2.2).length
        ≤ MAX_DIR_CACHE_SIZE) ∧
    (∀ (p : P) (d m : Nat) (v : List P) (c : Cache P) (r : P) (val : Nat),
      ¬ MAX_DIRECTORY_DEPTH < d → fs.resolve p = some r → r ∉ v →
      cacheFind c p = some val →
      calculate_directory_size fs p d m v c
        = (val, r :: v, manage_cache c p MAX_DIR_CACHE_SIZE)) ∧
    (∀ (c : Cache P) (k : P) (w n : Nat),
      cacheFind c k = none → n ≤ c.length →
      cacheSet (manage_cache c k n) k w = c.drop 1 ++ [(k, w)]) ∧
    (∀ (c : Cache P) (k1 knew : P) (v1 w n : Nat),
      (c.map Prod.fst).Nodup → c.length = n → 2 ≤ n →
      cacheFind c k1 = some v1 → cacheFind c knew = none →
      cacheFind (cacheSet (manage_cache (manage_cache c k1 n) knew n)
        knew w) k1 = some v1 ∧
      (∀ kv0, c.head? = some kv0 → kv0.1 ≠ k1 →
        cacheFind (cacheSet (manage_cache (manage_cache c k1 n) knew n)
          knew w) kv0.1 = none)) := by
  refine ⟨fun p d m v c hc => (cache_bound fs).1 p d m v c hc,
    fun p d m v c r val h hr hv hcf =>
      calc_cache_hit fs p d m v c r val h hr hv hcf,
    ?_, ?_⟩
  · intro c k w n hck hfull
    have hdrop : cacheFind (c.drop 1) k = none := by
      rw [cacheFind_eq_none] at hck ⊢
      intro kv hkv
      exact hck kv (List.mem_of_mem_drop hkv)
    unfold manage_cache
    rw [hck]
    simp only [Option.isSome_none, Bool.false_eq_true, if_false, hfull,
      if_true]
    unfold cacheSet popOldest
    rw [hdrop]
    simp
  · intro c k1 knew v1 w n hnd hlen h2 h1 hnew
    exact ⟨(lru_promote_insert c k1 knew v1 w n hnd hlen h2 h1 hnew).1,
      (lru_promote_insert c k1 knew v1 w n hnd hlen h2 h1 hnew).2.2.1⟩

/-- Witness for C4: the bound on a one-entry cache; a concrete cache hit
on literal key `0` with value 42; eviction of the oldest of two entries
at capacity 2; and survival of the promoted key `2` while the old LRU key
`1` is evicted. -/
theorem C4_lru_cache_witness :
    ([((7 : Nat), 42)] : Cache Nat).length ≤ MAX_DIR_CACHE_SIZE ∧
    ((calculate_directory_size cycFS 0 0 1000 [] [(7, 42)]).2.2).length
      ≤ MAX_DIR_CACHE_SIZE ∧
    calculate_directory_size cycFS 0 0 1000 [] [(0, 42)]
      = (42, [0], manage_cache [(0, 42)] 0 MAX_DIR_CACHE_SIZE) ∧
    cacheSet (manage_cache ([(1, 10), (2, 20)] : Cache Nat) 9 2) 9 5
      = ([(1, 10), (2, 20)] : Cache Nat).drop 1 ++ [(9, 5)] ∧
    cacheFind (cacheSet (manage_cache (manage_cache
      ([(1, 10), (2, 20)] : Cache Nat) 2 2) 9 2) 9 5) 2 = some 20 ∧
    cacheFind (cacheSet (manage_cache (manage_cache
      ([(1, 10), (2, 20)] : Cache Nat) 2 2) 9 2) 9 5) 1 = none := by
  refine ⟨by decide,
    (C4_lru_cache cycFS).1 0 0 1000 [] [(7, 42)] (by decide),
    (C4_lru_cache cycFS).2.1 0 0 1000 [] [(0, 42)] 0 42 (by decide)
      (by decide) (by decide) (by decide),
    (C4_lru_cache cycFS).2.2.1 [(1, 10), (2, 20)] 9 5 2 (by decide)
      (by decide),
    ((C4_lru_cache cycFS).2.2.2 [(1, 10), (2, 20)] 2 9 20 5 2 (by decide)
      (by decide) (by decide) (by decide) (by decide)).1,
    ((C4_lru_cache cycFS).2.2.2 [(1, 10), (2, 20)] 2 9 20 5 2 (by decide)
      (by decide) (by decide) (by decide) (by decide)).2 (1, 10)
      (by decide) (by decide)⟩

/-- C5: two consecutive top-level calls on the same path return the
identical value, the second answered from the cache: whatever the first
call computed, a second call — even against a changed filesystem `fs2`,
as long as the path still resolves — returns the first call's value, and
its cache effect is exactly the `_manage_cache` promotion of the key; the
right-hand side never consults `fs2.listing`, so the filesystem is not
re-walked and the possibly stale cached total is returned. -/
theorem C5_cache_stale_reuse (fs fs2 : FS P) (p : P) (m : Nat)
    (c : Cache P) (r r2 : P)
    (hr : fs.resolve p = some r) (hr2 : fs2.resolve p = some r2) :
    calculate_directory_size fs2 p 0 m []
        (calculate_directory_size fs p 0 m [] c).2.2
      = ((calculate_directory_size fs p 0 m [] c).1, [r2],
         manage_cache (calculate_directory_size fs p 0 m [] c).2.2 p
           MAX_DIR_CACHE_SIZE) := by
  have hdl : ¬ MAX_DIRECTORY_DEPTH < 0 := by decide
  have hfind : cacheFind (calculate_directory_size fs p 0 m [] c).2.2 p
      = some (calculate_directory_size fs p 0 m [] c).1 := by
    cases hc : cacheFind c p with
    | some v =>
      rw [calc_cache_hit fs p 0 m [] c r v hdl hr (List.not_mem_nil r) hc]
      show cacheFind (manage_cache c p MAX_DIR_CACHE_SIZE) p = some v
      unfold manage_cache
      rw [hc]
      simp only [Option.isSome_some, if_true]
      rw [cacheFind_moveToEnd_self, hc]
    | none =>
      cases hl : fs.listing p with
      | none =>
        rw [calc_listing_none fs p 0 m [] c r hdl hr (List.not_mem_nil r)
          hc hl]
        exact cacheFind_cacheSet_self _ p 0
      | some es =>
        rw [calc_listing_some fs p 0 m [] c r es hdl hr
          (List.not_mem_nil r) hc hl]
        exact cacheFind_cacheSet_self _ p _
  exact calc_cache_hit fs2 p 0 m [] _ r2 _ hdl hr2 (List.not_mem_nil r2)
    hfind

/-- Witness for C5: a first call on the root of a tree holding a 50-byte
file caches 50; after the tree changes to hold a 999-byte file, the
second call still returns the stale 50 (a fresh walk of the changed tree
would give 999). -/
theorem C5_cache_stale_reuse_witness :
    (treeFS (DirTree.dir 0 [DirTree.file 50])).resolve [] = some [] ∧
    (treeFS (DirTree.dir 0 [DirTree.file 999])).resolve [] = some [] ∧
    calculate_directory_size (treeFS (DirTree.dir 0 [DirTree.file 999]))
        [] 0 1000 []
        (calculate_directory_size (treeFS (DirTree.dir 0 [DirTree.file 50]))
          [] 0 1000 [] []).2.2
      = ((calculate_directory_size
            (treeFS (DirTree.dir 0 [DirTree.file 50])) [] 0 1000 [] []).1,
         [[]],
         manage_cache
           (calculate_directory_size
             (treeFS (DirTree.dir 0 [DirTree.file 50])) [] 0 1000
             [] []).2.2 [] MAX_DIR_CACHE_SIZE) ∧
    (calculate_directory_size (treeFS (DirTree.dir 0 [DirTree.file 50]))
      [] 0 1000 [] []).1 = 50 ∧
    (calculate_directory_size (treeFS (DirTree.dir 0 [DirTree.file 999]))
      [] 0 1000 [] []).1 = 999 := by
  refine ⟨rfl, rfl,
    C5_cache_stale_reuse (treeFS (DirTree.dir 0 [DirTree.file 50]))
      (treeFS (DirTree.dir 0 [DirTree.file 999])) [] 1000 [] [] [] rfl
      rfl, ?_, ?_⟩
  · simp [calculate_directory_size, processEntries, treeFS, lookupTree,
      cacheFind, manage_cache, cacheSet, childPaths, moveToEnd, popOldest,
      MAX_DIRECTORY_DEPTH, MAX_DIR_CACHE_SIZE, List.range_succ]
  · simp [calculate_directory_size, processEntries, treeFS, lookupTree,
      cacheFind, manage_cache, cacheSet, childPaths, moveToEnd, popOldest,
      MAX_DIRECTORY_DEPTH, MAX_DIR_CACHE_SIZE, List.range_succ]

/-- C6: the per-directory breadth cap. Once `items_processed` reaches
`max_items` the loop stops and contributes nothing more; entries appended
past the point where the budget runs out change nothing; an entry whose
`lstat` fails still consumes one unit of budget (the counter is
incremented before the `lstat` is attempted); and consequently the total
of a directory listing `es ++ extra` with `max_items ≤ es.length` is
determined by `es` alone. -/
theorem C6_breadth_cap (fs : FS P) :
    (∀ (e : P) (rest : List P) (d m ip : Nat) (v : List P) (c : Cache P),
      m ≤ ip →
      processEntries fs (e :: rest) d m ip v c = (0, v, c)) ∧
    (∀ (es extra : List P) (d m ip : Nat) (v : List P) (c : Cache P),
      m ≤ ip + es.length →
      processEntries fs (es ++ extra) d m ip v c
        = processEntries fs es d m ip v c) ∧
    (∀ (e : P) (rest : List P) (d m ip : Nat) (v : List P) (c : Cache P),
      ¬ m ≤ ip → fs.lstat e = none →
      processEntries fs (e :: rest) d m ip v c
        = processEntries fs rest d m (ip + 1) v c) ∧
    (∀ (p : P) (es extra : List P) (d m : Nat) (v : List P) (c : Cache P)
        (r : P),
      ¬ MAX_DIRECTORY_DEPTH < d → fs.resolve p = some r → r ∉ v →
      cacheFind c p = none → fs.listing p = some (es ++ extra) →
      m ≤ es.length →
      (calculate_directory_size fs p d m v c).1
        = (processEntries fs es d m 0 (r :: v) c).1) := by
  refine ⟨fun e rest d m ip v c h => process_budget fs e rest d m ip v c h,
    fun es extra d m ip v c h => process_truncate fs es extra d m ip v c h,
    fun e rest d m ip v c h hs =>
      process_lstat_none fs e rest d m ip v c h hs,
    ?_⟩
  intro p es extra d m v c r h hr hv hc hl hm
  rw [calc_listing_some fs p d m v c r (es ++ extra) h hr hv hc hl]
  rw [process_truncate fs es extra d m 0 (r :: v) c (by omega)]

/-- Witness for C6 on `wideFS` (directory `0` with file entries `1`, `2`,
`3` of sizes 1, 2, 3) with `max_items = 2`: the budget stop, the
truncation equation, the budget consumption by a failing `lstat` (entry
`9`), the reduction of the full call to the first two entries, and the
resulting total 3 = 1 + 2 (the third entry's 3 bytes are not counted). -/
theorem C6_breadth_cap_witness :
    processEntries wideFS [3] 0 2 2 [] [] = (0, [], []) ∧
    processEntries wideFS ([1, 2] ++ [3]) 0 2 0 [] []
      = processEntries wideFS [1, 2] 0 2 0 [] [] ∧
    processEntries wideFS [9, 3] 0 2 1 [] []
      = processEntries wideFS [3] 0 2 2 [] [] ∧
    (calculate_directory_size wideFS 0 0 2 [] []).1
      = (processEntries wideFS [1, 2] 0 2 0 [0] []).1 ∧
    (calculate_directory_size wideFS 0 0 2 [] []).1 = 3 := by
  refine ⟨(C6_breadth_cap wideFS).1 3 [] 0 2 2 [] [] (by decide),
    (C6_breadth_cap wideFS).2.1 [1, 2] [3] 0 2 0 [] [] (by decide),
    (C6_breadth_cap wideFS).2.2.1 9 [3] 0 2 1 [] [] (by decide)
      (by decide),
    (C6_breadth_cap wideFS).2.2.2 0 [1, 2] [3] 0 2 [] [] 0 (by decide)
      (by decide) (by decide) (by decide) rfl (by decide), ?_⟩
  simp [calculate_directory_size, processEntries, wideFS, cacheFind,
    manage_cache, cacheSet, moveToEnd, popOldest, MAX_DIRECTORY_DEPTH,
    MAX_DIR_CACHE_SIZE]

/-- C7: user cancellation (`action_quit`) exits with a `FileInfo` whose
ten fields are all `None`, and that shape alone denotes cancellation:
over the results the app can produce, `select_file` post-processing
yields `None` exactly when the app result is `None` or the all-`None`
`FileInfo`; every success or error result has at least one non-`None`
field (`allFieldsNone` is `false` for them). -/
theorem C7_cancellation_is_all_none :
    cancelInfo.allFieldsNone = true ∧
    (∀ (path : String) (is_file : Bool) (mtime ctime : Int)
        (fsz dsz : Nat) (w venv sym sbrk : Bool),
      (mkSuccessInfo path is_file mtime ctime fsz dsz w venv sym
        sbrk).allFieldsNone = false) ∧
    (∀ (path err : String) (is_file : Bool),
      (mkErrorInfo path is_file err).allFieldsNone = false) ∧
    (∀ (r : Option FileInfo), AppProduced r → ∀ (ri : Bool),
      (select_file_postprocess r ri = SelectFileReturn.noSelection ↔
        r = none ∨ r = some cancelInfo)) := by
  refine ⟨rfl, ?_, ?_, ?_⟩
  · intro path is_file mtime ctime fsz dsz w venv sym sbrk
    simp [mkSuccessInfo, FileInfo.allFieldsNone]
  · intro path err is_file
    simp [mkErrorInfo, FileInfo.allFieldsNone]
  · intro r hr ri
    cases hr with
    | no_result => simp [select_file_postprocess]
    | cancelled => simp [select_file_postprocess, cancelInfo,
        FileInfo.allFieldsNone]
    | success path is_file mtime ctime fsz dsz w venv sym sbrk =>
      cases ri <;> cases is_file <;>
        simp [select_file_postprocess, mkSuccessInfo,
          FileInfo.allFieldsNone, FileInfo.path, cancelInfo,
          FileInfo.mk.injEq]
    | failure path is_file err =>
      cases ri <;> cases is_file <;>
        simp [select_file_postprocess, mkErrorInfo,
          FileInfo.allFieldsNone, FileInfo.path, cancelInfo,
          FileInfo.mk.injEq]

/-- Witness for C7: the cancellation shape maps to `None` while a
concrete success result and a concrete error result do not. -/
theorem C7_cancellation_is_all_none_witness :
    cancelInfo.allFieldsNone = true ∧
    (select_file_postprocess (some cancelInfo) true
        = SelectFileReturn.noSelection ↔
      some cancelInfo = none ∨ some cancelInfo = some cancelInfo) ∧
    (select_file_postprocess
        (some (mkSuccessInfo "a.txt" true 0 0 5 0 true false false false))
        false = SelectFileReturn.noSelection ↔
      some (mkSuccessInfo "a.txt" true 0 0 5 0 true false false false)
          = none ∨
      some (mkSuccessInfo "a.txt" true 0 0 5 0 true false false false)
          = some cancelInfo) ∧
    (select_file_postprocess (some (mkErrorInfo "b" false "denied")) true
        = SelectFileReturn.noSelection ↔
      some (mkErrorInfo "b" false "denied") = none ∨
      some (mkErrorInfo "b" false "denied") = some cancelInfo) :=
  ⟨C7_cancellation_is_all_none.1,
   C7_cancellation_is_all_none.2.2.2 (some cancelInfo)
     AppProduced.cancelled true,
   C7_cancellation_is_all_none.2.2.2
     (some (mkSuccessInfo "a.txt" true 0 0 5 0 true false false false))
     (AppProduced.success "a.txt" true 0 0 5 0 true false false false)
     false,
   C7_cancellation_is_all_none.2.2.2
     (some (mkErrorInfo "b" false "denied"))
     (AppProduced.failure "b" false "denied") true⟩

/-- C8: the error branch of `_create_file_info` sets `error_message` to
the failure's description, sets exactly the path field matching the
selection kind to the chosen path, and leaves all eight remaining fields
`None`. -/
theorem C8_error_info_fields (path err : String) (is_file : Bool) :
    (mkErrorInfo path is_file err).error_message = some err ∧
    (is_file = true → (mkErrorInfo path is_file err).file_path
        = some path ∧ (mkErrorInfo path is_file err).folder_path
        = none) ∧
    (is_file = false → (mkErrorInfo path is_file err).folder_path
        = some path ∧ (mkErrorInfo path is_file err).file_path = none) ∧
    (mkErrorInfo path is_file err).last_modified_datetime = none ∧
    (mkErrorInfo path is_file err).creation_datetime = none ∧
    (mkErrorInfo path is_file err).size_in_bytes = none ∧
    (mkErrorInfo path is_file err).readonly = none ∧
    (mkErrorInfo path is_file err).folder_has_venv = none ∧
    (mkErrorInfo path is_file err).is_symlink = none ∧
    (mkErrorInfo path is_file err).symlink_broken = none := by
  cases is_file <;> simp [mkErrorInfo]

/-- Witness for C8 at a file selection and a folder selection. -/
theorem C8_error_info_fields_witness :
    (mkErrorInfo "f.txt" true "Permission denied").file_path
      = some "f.txt" ∧
    (mkErrorInfo "f.txt" true "Permission denied").error_message
      = some "Permission denied" ∧
    (mkErrorInfo "d" false "Permission denied").folder_path = some "d" :=
  ⟨((C8_error_info_fields "f.txt" "Permission denied" true).2.1 rfl).1,
   (C8_error_info_fields "f.txt" "Permission denied" true).1,
   ((C8_error_info_fields "d" "Permission denied" false).2.2.1 rfl).1⟩

/-- C9: every successful `FileInfo` has exactly one of
`file_path`/`folder_path` set (exclusive or of their `isSome`s), and
`folder_has_venv` is `None` whenever a file was selected. -/
theorem C9_success_exactly_one_path (path : String) (is_file : Bool)
    (mtime ctime : Int) (fsz dsz : Nat) (w venv sym sbrk : Bool) :
    (((mkSuccessInfo path is_file mtime ctime fsz dsz w venv sym
        sbrk).file_path.isSome)
      ^^ ((mkSuccessInfo path is_file mtime ctime fsz dsz w venv sym
        sbrk).folder_path.isSome)) = true ∧
    (((mkSuccessInfo path is_file mtime ctime fsz dsz w venv sym
        sbrk).file_path.isSome)
      && ((mkSuccessInfo path is_file mtime ctime fsz dsz w venv sym
        sbrk).folder_has_venv.isSome)) = false := by
  cases is_file <;> simp [mkSuccessInfo]

/-- C10: the validation prefix of `select_file` raises `ValueError` —
without launching the browser — when a given start path is not an
existing directory, or is a directory but not readable, or when both
selection flags are false; a `None` start path is replaced by the current
working directory. -/
theorem C10_select_file_validation (env : Env) (sf sd : Bool) :
    (∀ p, env.isDir p = false →
      select_file_validate env (some p) sf sd
        = Validation.error
            ("Start path must be a valid directory: " ++ p)) ∧
    (∀ p, env.isDir p = true → env.isReadable p = false →
      select_file_validate env (some p) sf sd
        = Validation.error ("Start path must be readable: " ++ p)) ∧
    (sf = false → sd = false → ∀ sp, ∃ msg,
      select_file_validate env sp sf sd = Validation.error msg) ∧
    ((sf || sd) = true →
      select_file_validate env none sf sd
        = Validation.launch env.cwd) := by
  refine ⟨?_, ?_, ?_, ?_⟩
  · intro p hd
    simp [select_file_validate, hd]
  · intro p hd hrd
    simp [select_file_validate, hd, hrd]
  · intro hsf hsd sp
    subst hsf
    subst hsd
    cases sp with
    | none =>
      exact ⟨"At least one of select_files or select_dirs must be True",
        by simp [select_file_validate]⟩
    | some p =>
      cases hd : env.isDir p with
      | false =>
        exact ⟨"Start path must be a valid directory: " ++ p,
          by simp [select_file_validate, hd]⟩
      | true =>
        cases hrd : env.isReadable p with
        | false =>
          exact ⟨"Start path must be readable: " ++ p,
            by simp [select_file_validate, hd, hrd]⟩
        | true =>
          exact
            ⟨"At least one of select_files or select_dirs must be True",
              by simp [select_file_validate, hd, hrd]⟩
  · intro hflags
    cases sf <;> cases sd <;> simp_all [select_file_validate]

/-- Witness for C10 on a concrete environment whose only readable
directory is `/data`. -/
theorem C10_select_file_validation_witness :
    select_file_validate
        ⟨"/home/user", fun p => decide (p = "/data"),
          fun _ => false⟩ (some "/nope") true false
      = Validation.error
          ("Start path must be a valid directory: " ++ "/nope") ∧
    select_file_validate
        ⟨"/home/user", fun p => decide (p = "/data"), fun _ => false⟩
        (some "/data") true false
      = Validation.error ("Start path must be readable: " ++ "/data") ∧
    (∃ msg, select_file_validate
        ⟨"/home/user", fun p => decide (p = "/data"), fun _ => false⟩
        (some "/data") false false = Validation.error msg) ∧
    select_file_validate
        ⟨"/home/user", fun p => decide (p = "/data"), fun _ => false⟩
        none true false
      = Validation.launch "/home/user" :=
  ⟨(C10_select_file_validation
      ⟨"/home/user", fun p => decide (p = "/data"), fun _ => false⟩
      true false).1 "/nope" (by decide),
   (C10_select_file_validation
      ⟨"/home/user", fun p => decide (p = "/data"), fun _ => false⟩
      true false).2.1 "/data" (by decide) rfl,
   (C10_select_file_validation
      ⟨"/home/user", fun p => decide (p = "/data"), fun _ => false⟩
      false false).2.2.1 rfl rfl (some "/data"),
   (C10_select_file_validation
      ⟨"/home/user", fun p => decide (p = "/data"), fun _ => false⟩
      true false).2.2.2 rfl⟩

end SelectFileCLI
